import Mathlib

/-!
# srsRAN: MAC scheduler resource grid and byte-buffer pool

A shallow embedding of

* `srsenb/hdr/stack/mac/scheduler_grid.h` (allocation outcome type, PDCCH CCE grid,
  TTI resource grid), and
* `lib/include/srslte/common/buffer_pool.h` (fixed-capacity buffer pool).

Conventions.

* Pointers (`buffer_t*`, `void*`) are natural numbers; `nullptr` is `0`.
* `uint32_t` values are natural numbers, reduced `% 2 ^ 32` where the code can wrap.
* Bitsets (`pdcch_mask_t`, `rbgmask_t`, `prbmask_t`) are natural numbers read in binary:
  bit `i` of the number is bit `i` of the bitset.  `&` is `&&&`, `|` is `|||`.
* `std::stack` is a list whose head is the top; `std::vector` is a list in index order.
* The member functions of `pdcch_grid_t` and `tti_grid_t` are only declared in the header;
  their bodies are modelled from the specification and marked as such.
-/

set_option linter.dupNamespace false

namespace srslte

/-! ## `buffer_pool.h` -/

/-- The null pointer. -/
def nullptr : Nat := 0

/-- Source: `static const int POOL_SIZE = 4096;` -/
def POOL_SIZE : Nat := 4096

/-- The data members of `buffer_pool<buffer_t>` (mutex and condition variable apart):
`std::stack<buffer_t*> available` (head = top), `std::vector<buffer_t*> used`,
`uint32_t capacity`. -/
structure buffer_pool where
  available : List Nat
  used : List Nat
  capacity : Nat
deriving DecidableEq, Repr

namespace buffer_pool

/-- The preallocation loop `for (i = 0; i < nof_buffers; i++)` of the constructor.
`heap i` is the pointer returned by the `i`-th `new (std::nothrow) buffer_t`; a null result
ends the process (`exit(-1)`), which is `none`.  `n` counts the iterations left. -/
def preallocate (heap : Nat → Nat) : Nat → Nat → List Nat → Option (List Nat)
  | 0, _, available => some available
  | n + 1, i, available =>
    if heap i = nullptr then none
    else preallocate heap n (i + 1) (heap i :: available)

/-- The constructor `buffer_pool(int capacity_ = -1)`. -/
def buffer_pool (heap : Nat → Nat) (capacity_ : Int) : Option buffer_pool :=
  let nof_buffers : Nat := if capacity_ > 0 then capacity_.toNat % 2 ^ 32 else POOL_SIZE
  match preallocate heap nof_buffers 0 [] with
  | none => none
  | some available => some { available := available, used := [], capacity := nof_buffers }

/-- Source: `uint32_t nof_available_pdus() { return available.size(); }` -/
def nof_available_pdus (p : srslte.buffer_pool) : Nat :=
  p.available.length % 2 ^ 32

/-- Source: `bool is_almost_empty() { return available.size() < capacity / 20; }` -/
def is_almost_empty (p : srslte.buffer_pool) : Bool :=
  decide (p.available.length < p.capacity / 20)

/-- Source: `buffer_t* allocate(const char* debug_name = nullptr, bool blocking = false)`.
The result is the returned pointer and the pool afterwards.  With `blocking` set and no
buffer available the call waits on `cv_not_empty` and does not return from this state:
that is `none`.  The warning and error printouts do not touch the pool. -/
def allocate (p : srslte.buffer_pool) (blocking : Bool) : Option (Nat × srslte.buffer_pool) :=
  match p.available with
  | b :: rest => some (b, { p with used := p.used ++ [b], available := rest })
  | [] => if blocking then none else some (nullptr, p)

/-- Source: `bool deallocate(buffer_t* b)`: `std::find` gives the position of the first element of
`used` equal to `b`, or `used.size()` for `used.end()`. -/
def deallocate (p : srslte.buffer_pool) (b : Nat) : Bool × srslte.buffer_pool :=
  let elem := p.used.indexOf b
  if elem ≠ p.used.length then
    (true, { p with used := p.used.eraseIdx elem, available := b :: p.available })
  else
    (false, p)

/-- The pool states that arise from construction by calls of `allocate` that return and
calls of `deallocate` with any pointer. -/
inductive reachable : srslte.buffer_pool → Prop
  | construct (heap : Nat → Nat) (capacity_ : Int) (p : srslte.buffer_pool) :
      buffer_pool heap capacity_ = some p → reachable p
  | allocate (p : srslte.buffer_pool) (blocking : Bool) (b : Nat) (q : srslte.buffer_pool) :
      reachable p → p.allocate blocking = some (b, q) → reachable q
  | deallocate (p : srslte.buffer_pool) (b : Nat) :
      reachable p → reachable (p.deallocate b).2

/-- The pool states that arise from the state `p0` by calls of `allocate` that return and
calls of `deallocate` with any pointer. -/
inductive reachable_from (p0 : srslte.buffer_pool) : srslte.buffer_pool → Prop
  | start : reachable_from p0 p0
  | allocate (p : srslte.buffer_pool) (blocking : Bool) (b : Nat) (q : srslte.buffer_pool) :
      reachable_from p0 p → p.allocate blocking = some (b, q) → reachable_from p0 q
  | deallocate (p : srslte.buffer_pool) (b : Nat) :
      reachable_from p0 p → reachable_from p0 (p.deallocate b).2

/-- The pool states that arise from the state `p` by calls of `allocate` that return and
calls of `deallocate` with any pointer other than `b`. -/
inductive reachable_keeping (b : Nat) (p : srslte.buffer_pool) : srslte.buffer_pool → Prop
  | start : reachable_keeping b p p
  | allocate (q : srslte.buffer_pool) (blocking : Bool) (r : Nat) (q2 : srslte.buffer_pool) :
      reachable_keeping b p q → q.allocate blocking = some (r, q2) → reachable_keeping b p q2
  | deallocate (q : srslte.buffer_pool) (r : Nat) :
      reachable_keeping b p q → r ≠ b → reachable_keeping b p (q.deallocate r).2

end buffer_pool

/-- The data members of `byte_buffer_pool`. -/
structure byte_buffer_pool where
  print_to_log : Bool
  pool : buffer_pool
deriving DecidableEq, Repr

/-- Source: `void byte_buffer_pool::deallocate(void* b)`; `print_error` only writes a message. -/
def byte_buffer_pool.deallocate (s : byte_buffer_pool) (b : Nat) : byte_buffer_pool :=
  if b = nullptr then s
  else { s with pool := (s.pool.deallocate b).2 }

end srslte

namespace srsenb

/-! ## `scheduler_grid.h` -/

/-- Source: `enum class alloc_type_t` -/
inductive alloc_type_t
  | DL_BC | DL_PCCH | DL_RAR | DL_DATA | UL_DATA
deriving DecidableEq, Repr

namespace alloc_outcome_t

/-- Source: `enum result_enum` -/
inductive result_enum
  | SUCCESS | DCI_COLLISION | RB_COLLISION | ERROR
deriving DecidableEq, Repr

end alloc_outcome_t

/-- Source: `struct alloc_outcome_t`, with the member initialiser `result_enum result = ERROR`. -/
structure alloc_outcome_t where
  result : alloc_outcome_t.result_enum := alloc_outcome_t.result_enum.ERROR
deriving DecidableEq, Repr

namespace alloc_outcome_t

/-- Source: `alloc_outcome_t() = default;` -/
def default_ctor : alloc_outcome_t := {}

/-- Source: `alloc_outcome_t(result_enum e) : result(e) {}` -/
def of_result_enum (e : result_enum) : alloc_outcome_t := { result := e }

/-- Source: `operator result_enum() { return result; }` -/
def to_result_enum (o : alloc_outcome_t) : result_enum := o.result

/-- Source: `operator bool() { return result == SUCCESS; }` -/
def to_bool (o : alloc_outcome_t) : Bool := decide (o.result = result_enum.SUCCESS)

end alloc_outcome_t

/-! ### Bitsets -/

/-- Modelled from the spec: the type `pdcch_mask_t` (declared in a header that is not part
of the sources), a bitmask over the control-channel elements. -/
abbrev pdcch_mask_t := Nat

/-- Modelled from the spec: the type `rbgmask_t` (declared in a header that is not part of
the sources), a bitmask over the downlink resource-block groups. -/
abbrev rbgmask_t := Nat

/-- Modelled from the spec: the type `prbmask_t` (declared in a header that is not part of
the sources), a bitmask over the uplink resource blocks. -/
abbrev prbmask_t := Nat

/-- Modelled from the spec: the bit-counting loop behind `popcount`; `fuel` bounds the
number of binary digits looked at. -/
def popcount_loop : Nat → Nat → Nat
  | 0, _ => 0
  | fuel + 1, m => if m = 0 then 0 else m % 2 + popcount_loop fuel (m / 2)

/-- Modelled from the spec: `popcount` of a bitmask (`bounded_bitset::count`, whose header
is not part of the sources): the number of set bits. -/
def popcount (m : Nat) : Nat := popcount_loop m m

/-- Modelled from the spec: the occupancy bitmask of a control-channel candidate that
starts at element `startpos` with aggregation index `aggr_idx`: the `2 ^ aggr_idx`
elements `startpos, ..., startpos + 2 ^ aggr_idx - 1`. -/
def cce_mask (startpos aggr_idx : Nat) : pdcch_mask_t :=
  (2 ^ (2 ^ aggr_idx) - 1) * 2 ^ startpos

/-! ### Collaborators that the header only names -/

/-- Modelled from the spec: a candidate location table (`sched_ue::sched_dci_cce_t`, declared
in a header that is not part of the sources): for each aggregation index the ordered list
of candidate starting positions. -/
abbrev sched_dci_cce_t := List (List Nat)

/-- Modelled from the spec: the candidates of a table at an aggregation index, in table
order; an aggregation index without an entry has no candidate. -/
def sched_dci_cce_t.candidates (t : sched_dci_cce_t) (aggr_idx : Nat) : List Nat :=
  t.getD aggr_idx []

/-- Modelled from the spec: the target (`sched_ue`, declared in a header that is not part of
the sources) supplies its identity, its required aggregation level and its own candidate
search space per format and subframe index. -/
structure sched_ue where
  rnti : Nat
  aggr_level : Nat
  get_locations : Nat → Nat → sched_dci_cce_t

/-- Modelled from the spec: the fixed per-direction processing delays, the wrap period of
the cycle index and the number of cycles per frame (their macros are not part of the
sources). -/
structure tti_consts_t where
  tx_delay_dl : Nat
  tx_delay_ul : Nat
  wrap_period : Nat
  sf_per_frame : Nat
deriving DecidableEq, Repr

/-- Modelled from the spec: the chosen position `srslte_dci_location_t` (declared in a
header that is not part of the sources): aggregation index `L` and first element `ncce`. -/
structure srslte_dci_location_t where
  L : Nat
  ncce : Nat
deriving DecidableEq, Repr

/-- Source: `std::array<uint32_t, 3>` -/
structure array3 where
  a0 : Nat
  a1 : Nat
  a2 : Nat
deriving DecidableEq, Repr

/-- Indexing a 3-entry array; an index of 3 or more is out of bounds. -/
def array3.get? (a : array3) : Nat → Option Nat
  | 0 => some a.a0
  | 1 => some a.a1
  | 2 => some a.a2
  | _ => none

/-! ### `pdcch_grid_t` -/

namespace pdcch_grid_t

/-- Source: `struct alloc_t` -/
structure alloc_t where
  rnti : Nat
  dci_pos : srslte_dci_location_t
  current_mask : pdcch_mask_t
  total_mask : pdcch_mask_t
deriving DecidableEq, Repr

/-- Source: `using tree_node_t = std::pair<int, alloc_t>`: the parent node index and the node. -/
abbrev tree_node_t := Int × alloc_t

end pdcch_grid_t

/-- The data members of `pdcch_grid_t` (the logger apart). -/
structure pdcch_grid_t where
  common_locations : List sched_dci_cce_t
  rar_locations : List (List sched_dci_cce_t)
  cce_size_array : array3
  tti_rx : Nat
  sf_idx : Nat
  current_cfix : Nat
  prev_start : Nat
  prev_end : Nat
  dci_alloc_tree : List pdcch_grid_t.tree_node_t
  nof_dci_allocs : Nat
deriving DecidableEq, Repr

namespace pdcch_grid_t

/-- Source: `uint32_t get_cfi() const { return current_cfix + 1; }` -/
def get_cfi (g : pdcch_grid_t) : Nat := (g.current_cfix + 1) % 2 ^ 32

/-- Source: `uint32_t nof_cces() const { return cce_size_array[current_cfix]; }`; `none` is an
index out of the bounds of the array. -/
def nof_cces (g : pdcch_grid_t) : Option Nat := g.cce_size_array.get? g.current_cfix

/-- Source: `size_t nof_allocs() const { return nof_dci_allocs; }` -/
def nof_allocs (g : pdcch_grid_t) : Nat := g.nof_dci_allocs

/-- Source: `size_t nof_alloc_combinations() const { return prev_end - prev_start; }` -/
def nof_alloc_combinations (g : pdcch_grid_t) : Nat :=
  (g.prev_end + 2 ^ 64 - g.prev_start % 2 ^ 64) % 2 ^ 64

/-- Source: `uint32_t get_sf_idx() const { return sf_idx; }` -/
def get_sf_idx (g : pdcch_grid_t) : Nat := g.sf_idx

/-- Modelled from the spec: `pdcch_grid_t::reset` (body not in the header): truncate the
node sequence to length zero and reset the committed-node count. -/
def reset (g : pdcch_grid_t) : pdcch_grid_t :=
  { g with prev_start := 0, prev_end := 0, dci_alloc_tree := [], nof_dci_allocs := 0 }

/-- Modelled from the spec: `pdcch_grid_t::new_tti` (body not in the header): clears the
allocation-node sequence, resets the committed-node count to zero and selects the initial
control-channel format. -/
def new_tti (c : tti_consts_t) (g : pdcch_grid_t) (tti_rx_ start_cfi : Nat) : pdcch_grid_t :=
  reset { g with
    tti_rx := tti_rx_,
    sf_idx := ((tti_rx_ + c.tx_delay_dl) % c.wrap_period) % c.sf_per_frame,
    current_cfix := (start_cfi + 2 ^ 32 - 1) % 2 ^ 32 }

/-- Modelled from the spec: `pdcch_grid_t::get_cce_loc_table` (body not in the header):
broadcast and paging use the common table of the current format, random access the table
of the current format and subframe, and the per-user categories the search space supplied
by the target.  `none` stands for the null pointer. -/
def get_cce_loc_table (g : pdcch_grid_t) (alloc_type : alloc_type_t) (user : Option sched_ue) :
    Option sched_dci_cce_t :=
  match alloc_type with
  | alloc_type_t.DL_BC => g.common_locations[g.current_cfix]?
  | alloc_type_t.DL_PCCH => g.common_locations[g.current_cfix]?
  | alloc_type_t.DL_RAR => (g.rar_locations[g.current_cfix]?).bind (fun t => t[g.sf_idx]?)
  | alloc_type_t.DL_DATA => user.map (fun u => u.get_locations (g.current_cfix + 1) g.sf_idx)
  | alloc_type_t.UL_DATA => user.map (fun u => u.get_locations (g.current_cfix + 1) g.sf_idx)

/-- Modelled from the spec: the cumulative mask of the most recently committed node, or the
empty mask if none is
committed yet. -/
def cum_mask (g : pdcch_grid_t) : pdcch_mask_t :=
  match g.dci_alloc_tree.getLast? with
  | some node => node.2.total_mask
  | none => 0

/-- Modelled from the spec: the index of the most recently committed node in the
parent-indexed node sequence, or `-1` if none is committed yet. -/
def last_node_idx (g : pdcch_grid_t) : Int := (g.dci_alloc_tree.length : Int) - 1

/-- Modelled from the spec: whether the element requirement `2 ^ aggr_idx` of a request is
within the element count of the current format; a format index outside `cce_size_array`
has no element count to be within. -/
def fits_nof_cces (g : pdcch_grid_t) (aggr_idx : Nat) : Bool :=
  match g.nof_cces with
  | some n => decide (2 ^ aggr_idx ≤ n)
  | none => false

/-- Modelled from the spec: `pdcch_grid_t::alloc_dci` (body not in the header): a request
whose element requirement exceeds the element count of the current format always fails;
otherwise walk the candidate list in table order, accept the first candidate whose
occupancy bitmask does not intersect the cumulative mask of the most recently committed
node, append a node for it whose parent is that node, and increment the committed count;
report failure without any change if no candidate is free. -/
def alloc_dci (g : pdcch_grid_t) (alloc_type : alloc_type_t) (aggr_idx : Nat)
    (user : Option sched_ue) : Bool × pdcch_grid_t :=
  if g.fits_nof_cces aggr_idx = false then (false, g)
  else
  match g.get_cce_loc_table alloc_type user with
  | none => (false, g)
  | some dci_locs =>
    match (dci_locs.candidates aggr_idx).find?
        (fun startpos => decide (g.cum_mask &&& cce_mask startpos aggr_idx = 0)) with
    | none => (false, g)
    | some startpos =>
      let alloc : alloc_t :=
        { rnti := match user with
            | some u => u.rnti
            | none => 0,
          dci_pos := { L := aggr_idx, ncce := startpos },
          current_mask := cce_mask startpos aggr_idx,
          total_mask := g.cum_mask ||| cce_mask startpos aggr_idx }
      (true, { g with
        dci_alloc_tree := g.dci_alloc_tree ++ [(g.last_node_idx, alloc)],
        prev_start := g.dci_alloc_tree.length,
        prev_end := g.dci_alloc_tree.length + 1,
        nof_dci_allocs := g.nof_dci_allocs + 1 })

/-- Modelled from the spec: the chain of nodes from node `i` back to the root, following the
parent indices; leaf
first.  `fuel` bounds the number of nodes visited; `none` is an index outside the node
sequence or a chain longer than `fuel`. -/
def chain_to_root (tree : List tree_node_t) : Nat → Nat → Option (List alloc_t)
  | 0, _ => none
  | fuel + 1, i =>
    match tree[i]? with
    | none => none
    | some node =>
      if node.1 ≥ 0 then (chain_to_root tree fuel node.1.toNat).map (fun l => node.2 :: l)
      else some [node.2]

/-- Modelled from the spec: `pdcch_grid_t::get_allocs` (body not in the header): the ordered
list of committed nodes, root first, reconstructed from the chain of parent indices that
starts at node `prev_start + idx`, and the cumulative mask of that node; the empty list and
the empty mask if nothing is committed. -/
def get_allocs (g : pdcch_grid_t) (idx : Nat) : Option (List alloc_t × pdcch_mask_t) :=
  if g.prev_start = g.prev_end then some ([], 0)
  else
    match g.dci_alloc_tree[g.prev_start + idx]?,
        chain_to_root g.dci_alloc_tree g.dci_alloc_tree.length (g.prev_start + idx) with
    | some node, some vec => some (vec.reverse, node.2.total_mask)
    | _, _ => none

/-- The grid states that arise from `new_tti` by calls of `alloc_dci`. -/
inductive reachable (c : tti_consts_t) : pdcch_grid_t → Prop
  | new_tti (g : pdcch_grid_t) (tti_rx_ start_cfi : Nat) :
      reachable c (g.new_tti c tti_rx_ start_cfi)
  | alloc_dci (g : pdcch_grid_t) (alloc_type : alloc_type_t) (aggr_idx : Nat)
      (user : Option sched_ue) :
      reachable c g → reachable c (g.alloc_dci alloc_type aggr_idx user).2

end pdcch_grid_t

/-! ### `tti_grid_t` -/

/-- The data members of `tti_grid_t` (the logger and the cell configuration pointer
apart). -/
structure tti_grid_t where
  nof_prbs : Nat
  nof_rbgs : Nat
  si_n_rbg : Nat
  rar_n_rbg : Nat
  tti_rx : Nat
  tti_tx_dl : Nat
  tti_tx_ul : Nat
  sfn : Nat
  pdcch_alloc : pdcch_grid_t
  avail_rbg : Nat
  dl_mask : rbgmask_t
  ul_mask : prbmask_t
deriving DecidableEq, Repr

namespace tti_grid_t

/-- Source: `uint32_t get_avail_rbgs() const { return avail_rbg; }` -/
def get_avail_rbgs (g : tti_grid_t) : Nat := g.avail_rbg

/-- Source: `const rbgmask_t& get_dl_mask() const { return dl_mask; }` -/
def get_dl_mask (g : tti_grid_t) : rbgmask_t := g.dl_mask

/-- Source: `const prbmask_t& get_ul_mask() const { return ul_mask; }` -/
def get_ul_mask (g : tti_grid_t) : prbmask_t := g.ul_mask

/-- Source: `uint32_t get_cfi() const { return pdcch_alloc.get_cfi(); }` -/
def get_cfi (g : tti_grid_t) : Nat := g.pdcch_alloc.get_cfi

/-- Source: `const pdcch_grid_t& get_pdcch_grid() const { return pdcch_alloc; }` -/
def get_pdcch_grid (g : tti_grid_t) : pdcch_grid_t := g.pdcch_alloc

/-- Modelled from the spec: `tti_grid_t::new_tti` (body not in the header): derives the
transmit cycle indices and the frame number from the receive cycle index, resets the
downlink and uplink masks to empty and the available groups to the total, and delegates
to the `new_tti` of the control-channel grid. -/
def new_tti (c : tti_consts_t) (g : tti_grid_t) (tti_rx_ start_cfi : Nat) : tti_grid_t :=
  { g with
    tti_rx := tti_rx_,
    tti_tx_dl := (tti_rx_ + c.tx_delay_dl) % c.wrap_period,
    tti_tx_ul := (tti_rx_ + c.tx_delay_ul) % c.wrap_period,
    sfn := ((tti_rx_ + c.tx_delay_dl) % c.wrap_period) / c.sf_per_frame,
    pdcch_alloc := g.pdcch_alloc.new_tti c tti_rx_ start_cfi,
    avail_rbg := g.nof_rbgs,
    dl_mask := 0,
    ul_mask := 0 }

/-- Modelled from the spec: `tti_grid_t::alloc_dl` (body not in the header), the common
private allocation path: (1) check that the data mask does not overlap, (2) attempt the
control-channel placement, (3) commit the data mask and the available-group count, or
leave them as they were. -/
def alloc_dl (g : tti_grid_t) (aggr_lvl : Nat) (alloc_type : alloc_type_t)
    (alloc_mask : rbgmask_t) (user : Option sched_ue) : alloc_outcome_t × tti_grid_t :=
  if g.dl_mask &&& alloc_mask ≠ 0 then
    (alloc_outcome_t.of_result_enum alloc_outcome_t.result_enum.RB_COLLISION, g)
  else
    let r := g.pdcch_alloc.alloc_dci alloc_type aggr_lvl user
    if r.1 = false then
      (alloc_outcome_t.of_result_enum alloc_outcome_t.result_enum.DCI_COLLISION,
        { g with pdcch_alloc := r.2 })
    else
      (alloc_outcome_t.of_result_enum alloc_outcome_t.result_enum.SUCCESS,
        { g with
          pdcch_alloc := r.2,
          dl_mask := g.dl_mask ||| alloc_mask,
          avail_rbg := (g.avail_rbg + 2 ^ 32 - popcount alloc_mask % 2 ^ 32) % 2 ^ 32 })

/-- Modelled from the spec: `tti_grid_t::alloc_dl_data` (body not in the header): a
per-user downlink allocation, with the control-channel placement sized to the aggregation
level that the target supplies. -/
def alloc_dl_data (g : tti_grid_t) (user : sched_ue) (user_mask : rbgmask_t) :
    alloc_outcome_t × tti_grid_t :=
  g.alloc_dl user.aggr_level alloc_type_t.DL_DATA user_mask (some user)

/-- The grid states that arise from `new_tti` by calls of `alloc_dl_data`, successful or
not, each with a mask of the `nof_rbgs` bits of the cell. -/
inductive reachable (c : tti_consts_t) : tti_grid_t → Prop
  | new_tti (g : tti_grid_t) (tti_rx_ start_cfi : Nat) :
      g.nof_rbgs < 2 ^ 32 → reachable c (g.new_tti c tti_rx_ start_cfi)
  | alloc_dl_data (g : tti_grid_t) (user : sched_ue) (user_mask : rbgmask_t) :
      reachable c g → user_mask < 2 ^ g.nof_rbgs →
      reachable c (g.alloc_dl_data user user_mask).2

end tti_grid_t

/-! ### Example data

The scenario of a cell with 25 resource-block groups whose format 1 has 12 control-channel
elements. -/

/-- Example cycle constants. -/
def example_consts : tti_consts_t :=
  { tx_delay_dl := 4, tx_delay_ul := 8, wrap_period := 10240, sf_per_frame := 10 }

/-- Example target with candidates at every aggregation index. -/
def example_userA : sched_ue :=
  { rnti := 70, aggr_level := 0,
    get_locations := fun _ _ => [[0, 1, 2, 3], [0, 2, 4], [0, 4], [0]] }

/-- Example target with other candidates. -/
def example_userB : sched_ue :=
  { rnti := 71, aggr_level := 1,
    get_locations := fun _ _ => [[4, 5, 6, 7], [4, 6, 8], [4, 8], [0]] }

/-- Example target that needs eight elements and has a single candidate for them, at
element 0. -/
def example_userC : sched_ue :=
  { rnti := 72, aggr_level := 3,
    get_locations := fun _ _ => [[0, 1, 2, 3], [0, 2, 4], [0, 4], [0]] }

/-- Example control-channel grid before its first cycle. -/
def example_pdcch_grid : pdcch_grid_t :=
  { common_locations :=
      [[[0, 1, 2, 3], [0, 2, 4], [0, 4], [0]], [[0, 1, 2, 3], [0, 2, 4], [0, 4], [0]],
        [[0, 1, 2, 3], [0, 2, 4], [0, 4], [0]]],
    rar_locations := [],
    cce_size_array := { a0 := 12, a1 := 29, a2 := 46 },
    tti_rx := 0, sf_idx := 0, current_cfix := 0, prev_start := 0, prev_end := 0,
    dci_alloc_tree := [], nof_dci_allocs := 0 }

/-- Example control-channel grid in a cycle, after a broadcast placement of two elements
and a per-user placement of one element. -/
def example_pdcch_state : pdcch_grid_t :=
  (((example_pdcch_grid.new_tti example_consts 100 1).alloc_dci
    alloc_type_t.DL_BC 1 none).2.alloc_dci alloc_type_t.DL_DATA 0 (some example_userA)).2

/-- Example resource grid before its first cycle. -/
def example_tti_grid : tti_grid_t :=
  { nof_prbs := 100, nof_rbgs := 25, si_n_rbg := 1, rar_n_rbg := 1,
    tti_rx := 10241, tti_tx_dl := 0, tti_tx_ul := 0, sfn := 0,
    pdcch_alloc := example_pdcch_grid, avail_rbg := 0, dl_mask := 0, ul_mask := 0 }

/-- Example resource grid at the start of cycle 100 with format 1. -/
def example_tti_start : tti_grid_t := example_tti_grid.new_tti example_consts 100 1

end srsenb

/-! ## Theorems: bitsets, PDCCH grid and resource grid -/

namespace srsenb

theorem or_and_eq_zero_iff (a b m : Nat) :
    (a ||| b) &&& m = 0 ↔ a &&& m = 0 ∧ b &&& m = 0 := by
  rw [Nat.and_distrib_right]
  constructor
  · intro h
    constructor
    · apply Nat.eq_of_testBit_eq
      intro i
      have := congrArg (fun x => Nat.testBit x i) h
      simp only [Nat.testBit_or, Nat.zero_testBit, Bool.or_eq_false_iff] at this
      simpa using this.1
    · apply Nat.eq_of_testBit_eq
      intro i
      have := congrArg (fun x => Nat.testBit x i) h
      simp only [Nat.testBit_or, Nat.zero_testBit, Bool.or_eq_false_iff] at this
      simpa using this.2
  · rintro ⟨h1, h2⟩
    simp [h1, h2]

theorem popcount_loop_fuel :
    ∀ (f1 f2 m : Nat), m ≤ f1 → m ≤ f2 → popcount_loop f1 m = popcount_loop f2 m := by
  intro f1
  induction f1 with
  | zero =>
    intro f2 m h1 _
    have hm : m = 0 := by omega
    subst hm
    cases f2 <;> simp [popcount_loop]
  | succ f1 ih =>
    intro f2 m h1 h2
    cases f2 with
    | zero =>
      have hm : m = 0 := by omega
      subst hm
      simp [popcount_loop]
    | succ f2 =>
      simp only [popcount_loop]
      by_cases hm : m = 0
      · simp [hm]
      · simp only [hm, if_false]
        have hlt : m / 2 < m := Nat.div_lt_self (Nat.pos_of_ne_zero hm) (by decide)
        rw [ih f2 (m / 2) (by omega) (by omega)]

theorem popcount_eq (m : Nat) :
    popcount m = if m = 0 then 0 else m % 2 + popcount (m / 2) := by
  cases m with
  | zero => rfl
  | succ k =>
    have hlt : (k + 1) / 2 < k + 1 := Nat.div_lt_self (Nat.succ_pos k) (by decide)
    simp only [popcount, popcount_loop, Nat.succ_ne_zero, if_false]
    rw [popcount_loop_fuel k ((k + 1) / 2) ((k + 1) / 2) (by omega) (le_refl _)]

theorem popcount_zero : popcount 0 = 0 := rfl

theorem popcount_or_of_disjoint :
    ∀ (n a b : Nat), a + b ≤ n → a &&& b = 0 → popcount (a ||| b) = popcount a + popcount b := by
  intro n
  induction n with
  | zero =>
    intro a b h _
    have ha : a = 0 := by omega
    have hb : b = 0 := by omega
    subst ha hb
    rfl
  | succ n ih =>
    intro a b h hd
    by_cases ha : a = 0
    · subst ha
      simp [popcount_zero]
    by_cases hb : b = 0
    · subst hb
      simp [popcount_zero]
    have hab : a ||| b ≠ 0 := by
      intro hc
      have := (or_and_eq_zero_iff a b (a ||| b)).1 (by rw [Nat.and_self, hc])
      have h1 : a &&& (a ||| b) = a := by
        apply Nat.eq_of_testBit_eq
        intro i
        simp only [Nat.testBit_and, Nat.testBit_or]
        cases Nat.testBit a i <;> simp
      rw [h1] at this
      exact ha this.1
    rw [popcount_eq (a ||| b), popcount_eq a, popcount_eq b]
    simp only [hab, ha, hb, if_false]
    have hdiv : a / 2 &&& b / 2 = 0 := by rw [← Nat.and_div_two, hd]
    have ha2 : a / 2 < a := Nat.div_lt_self (Nat.pos_of_ne_zero ha) (by decide)
    have hb2 : b / 2 < b := Nat.div_lt_self (Nat.pos_of_ne_zero hb) (by decide)
    rw [Nat.or_div_two, ih (a / 2) (b / 2) (by omega) hdiv]
    have hmod : (a ||| b) % 2 = a % 2 + b % 2 := by
      have h1 := @Nat.or_mod_two_eq_one a b
      have h2 := @Nat.and_mod_two_eq_one a b
      rw [hd] at h2
      have h3 := Nat.mod_two_eq_zero_or_one a
      have h4 := Nat.mod_two_eq_zero_or_one b
      have h5 := Nat.mod_two_eq_zero_or_one (a ||| b)
      simp at h2
      omega
    omega

theorem popcount_le_of_lt_two_pow :
    ∀ (n m : Nat), m < 2 ^ n → popcount m ≤ n := by
  intro n
  induction n with
  | zero =>
    intro m h
    have hm : m = 0 := by simpa using h
    subst hm
    simp [popcount_zero]
  | succ n ih =>
    intro m h
    rw [popcount_eq]
    by_cases hm : m = 0
    · simp [hm]
    · simp only [hm, if_false]
      have h2 : m / 2 < 2 ^ n := by
        rw [Nat.div_lt_iff_lt_mul (by decide)]
        rw [pow_succ] at h
        exact h
      have := ih (m / 2) h2
      have := Nat.mod_lt m (show 0 < 2 by decide)
      omega

namespace pdcch_grid_t

theorem foldl_or_init (l : List Nat) (acc : Nat) :
    l.foldl (fun x y => x ||| y) acc = acc ||| l.foldl (fun x y => x ||| y) 0 := by
  induction l generalizing acc with
  | nil => simp
  | cons a l ih =>
    simp only [List.foldl_cons, Nat.zero_or]
    rw [ih (acc ||| a), ih a, Nat.or_assoc]

theorem foldl_or_disjoint (l : List Nat) (m : Nat)
    (h : l.foldl (fun x y => x ||| y) 0 &&& m = 0) : ∀ x ∈ l, x &&& m = 0 := by
  induction l with
  | nil => intro x hx; exact absurd hx (by simp)
  | cons a l ih =>
    simp only [List.foldl_cons, Nat.zero_or] at h
    rw [foldl_or_init, or_and_eq_zero_iff] at h
    intro x hx
    rcases List.mem_cons.1 hx with rfl | hx
    · exact h.1
    · exact ih h.2 x hx

theorem cum_mask_eq (g : pdcch_grid_t) :
    g.cum_mask = match (g.dci_alloc_tree.map Prod.snd).getLast? with
      | some a => a.total_mask
      | none => 0 := by
  unfold cum_mask
  rw [List.getLast?_map]
  cases g.dci_alloc_tree.getLast? <;> rfl

/-- The invariant of the node sequence in the reachable grid states. -/
theorem reachable_tree (c : tti_consts_t) (g : pdcch_grid_t) (h : reachable c g) :
    g.prev_end = g.dci_alloc_tree.length ∧
    g.prev_start = g.dci_alloc_tree.length - 1 ∧
    g.nof_dci_allocs = g.dci_alloc_tree.length ∧
    (∀ (k : Nat) (node : tree_node_t), g.dci_alloc_tree[k]? = some node →
      node.1 = (k : Int) - 1) ∧
    (g.dci_alloc_tree.map Prod.snd).Pairwise
      (fun a b => a.current_mask &&& b.current_mask = 0) ∧
    ((g.dci_alloc_tree.map Prod.snd).map alloc_t.current_mask).foldl
      (fun x y => x ||| y) 0 = g.cum_mask := by
  induction h with
  | new_tti g tti_rx_ start_cfi =>
    simp [new_tti, reset, cum_mask]
  | alloc_dci g alloc_type aggr_idx user _ ih =>
    obtain ⟨h1, h2, h3, h4, h5, h6⟩ := ih
    unfold alloc_dci
    split
    · exact ⟨h1, h2, h3, h4, h5, h6⟩
    cases hloc : g.get_cce_loc_table alloc_type user with
    | none => exact ⟨h1, h2, h3, h4, h5, h6⟩
    | some dci_locs =>
      simp only
      cases hfind : (dci_locs.candidates aggr_idx).find?
          (fun startpos => decide (g.cum_mask &&& cce_mask startpos aggr_idx = 0)) with
      | none => exact ⟨h1, h2, h3, h4, h5, h6⟩
      | some startpos =>
        have hfree : g.cum_mask &&& cce_mask startpos aggr_idx = 0 := by
          have := List.find?_some hfind
          simpa using this
        simp only
        refine ⟨by simp, by simp, by simp [h3], ?_, ?_, ?_⟩
        · intro k node hk
          rcases Nat.lt_trichotomy k g.dci_alloc_tree.length with hlt | heq | hgt
          · rw [List.getElem?_append_left hlt] at hk
            exact h4 k node hk
          · subst heq
            simp only [List.getElem?_concat_length, Option.some.injEq] at hk
            subst hk
            simp [last_node_idx]
          · obtain ⟨hlen, -⟩ := List.getElem?_eq_some.1 hk
            simp only [List.length_append, List.length_singleton] at hlen
            omega
        · simp only [List.map_append, List.map_cons, List.map_nil]
          rw [List.pairwise_append]
          refine ⟨h5, List.pairwise_singleton _ _, ?_⟩
          intro a ha b hb
          simp only [List.mem_singleton] at hb
          subst hb
          simp only
          rw [← h6] at hfree
          exact foldl_or_disjoint _ _ hfree a.current_mask (List.mem_map_of_mem _ ha)
        · simp only [List.map_append, List.map_cons, List.map_nil, List.foldl_append,
            List.foldl_cons, List.foldl_nil]
          rw [h6]
          simp [cum_mask]

theorem chain_to_root_reachable (tree : List tree_node_t)
    (hpar : ∀ (k : Nat) (node : tree_node_t), tree[k]? = some node → node.1 = (k : Int) - 1) :
    ∀ (k fuel : Nat), k < tree.length → k + 1 ≤ fuel →
      chain_to_root tree fuel k = some (((tree.take (k + 1)).map Prod.snd).reverse) := by
  intro k
  induction k with
  | zero =>
    intro fuel hk hf
    obtain ⟨f, rfl⟩ : ∃ f, fuel = f + 1 := ⟨fuel - 1, by omega⟩
    have hget : tree[0]? = some tree[0] := List.getElem?_eq_getElem hk
    have hp := hpar 0 _ hget
    simp only [chain_to_root, hget]
    have hneg : ¬ (tree[0].1 ≥ 0) := by rw [hp]; decide
    simp only [hneg, if_false]
    cases tree with
    | nil => simp at hk
    | cons a t => simp
  | succ k ih =>
    intro fuel hk hf
    obtain ⟨f, rfl⟩ : ∃ f, fuel = f + 1 := ⟨fuel - 1, by omega⟩
    have hget : tree[k + 1]? = some tree[k + 1] := List.getElem?_eq_getElem hk
    have hp := hpar (k + 1) _ hget
    simp only [chain_to_root, hget]
    have hnn : tree[k + 1].1 ≥ 0 := by rw [hp]; push_cast; omega
    have htn : tree[k + 1].1.toNat = k := by rw [hp]; push_cast; omega
    simp only [hnn, if_true, htn]
    rw [ih f (by omega) (by omega)]
    have htake : (tree.take (k + 1 + 1)).map Prod.snd
        = (tree.take (k + 1)).map Prod.snd ++ [tree[k + 1].2] := by
      rw [List.take_succ, hget]
      simp only [Option.toList, List.map_append, List.map_cons, List.map_nil]
    rw [htake, List.reverse_append]
    rfl

end pdcch_grid_t

theorem pdcch_grid_t.alloc_dci_false_unchanged (g : pdcch_grid_t) (alloc_type : alloc_type_t)
    (aggr_idx : Nat) (user : Option sched_ue)
    (h : (g.alloc_dci alloc_type aggr_idx user).1 = false) :
    (g.alloc_dci alloc_type aggr_idx user).2 = g := by
  unfold pdcch_grid_t.alloc_dci at h ⊢
  split
  · rfl
  · next hfit =>
    simp only [hfit, if_false] at h
    split
    · rfl
    · next dci_locs hloc =>
      simp only [hloc] at h
      split
      · rfl
      · next startpos hfind =>
        simp only [hfind] at h
        exact absurd h (by simp)

namespace tti_grid_t

theorem alloc_dl_data_collision (g : tti_grid_t) (user : sched_ue) (m : rbgmask_t)
    (h : g.dl_mask &&& m ≠ 0) :
    (g.alloc_dl_data user m).1
        = alloc_outcome_t.of_result_enum alloc_outcome_t.result_enum.RB_COLLISION ∧
      (g.alloc_dl_data user m).2 = g := by
  unfold alloc_dl_data alloc_dl
  simp [h]

theorem alloc_dl_data_dci_fail (g : tti_grid_t) (user : sched_ue) (m : rbgmask_t)
    (hfree : g.dl_mask &&& m = 0)
    (hdci : (g.pdcch_alloc.alloc_dci alloc_type_t.DL_DATA user.aggr_level (some user)).1
      = false) :
    (g.alloc_dl_data user m).1
        = alloc_outcome_t.of_result_enum alloc_outcome_t.result_enum.DCI_COLLISION ∧
      (g.alloc_dl_data user m).2 = g := by
  have hsame := pdcch_grid_t.alloc_dci_false_unchanged _ _ _ _ hdci
  unfold alloc_dl_data alloc_dl
  simp [hfree, hdci, hsame]

theorem alloc_dl_data_commit (g : tti_grid_t) (user : sched_ue) (m : rbgmask_t)
    (hfree : g.dl_mask &&& m = 0)
    (hdci : (g.pdcch_alloc.alloc_dci alloc_type_t.DL_DATA user.aggr_level (some user)).1
      = true) :
    g.alloc_dl_data user m
      = (alloc_outcome_t.of_result_enum alloc_outcome_t.result_enum.SUCCESS,
        { g with
          pdcch_alloc :=
            (g.pdcch_alloc.alloc_dci alloc_type_t.DL_DATA user.aggr_level (some user)).2,
          dl_mask := g.dl_mask ||| m,
          avail_rbg := (g.avail_rbg + 2 ^ 32 - popcount m % 2 ^ 32) % 2 ^ 32 }) := by
  unfold alloc_dl_data alloc_dl
  simp [hfree, hdci]

theorem reachable_inv (c : tti_consts_t) (g : tti_grid_t) (h : reachable c g) :
    g.avail_rbg + popcount g.dl_mask = g.nof_rbgs ∧ g.dl_mask < 2 ^ g.nof_rbgs ∧
      g.nof_rbgs < 2 ^ 32 := by
  induction h with
  | new_tti g tti_rx_ start_cfi hn =>
    simp only [new_tti]
    refine ⟨by simp [popcount_zero], Nat.two_pow_pos _, hn⟩
  | alloc_dl_data g user m _ hm ih =>
    obtain ⟨h1, h2, h3⟩ := ih
    by_cases hcol : g.dl_mask &&& m = 0
    · cases hdci : (g.pdcch_alloc.alloc_dci alloc_type_t.DL_DATA user.aggr_level
          (some user)).1 with
      | false =>
        rw [(alloc_dl_data_dci_fail g user m hcol hdci).2]
        exact ⟨h1, h2, h3⟩
      | true =>
        rw [alloc_dl_data_commit g user m hcol hdci]
        simp only
        have hor : g.dl_mask ||| m < 2 ^ g.nof_rbgs := Nat.or_lt_two_pow h2 hm
        have hpc := popcount_or_of_disjoint _ g.dl_mask m (le_refl _) hcol
        have hle := popcount_le_of_lt_two_pow _ _ hor
        refine ⟨?_, hor, h3⟩
        rw [hpc]
        have hmle : popcount m ≤ g.avail_rbg := by omega
        have hmod : popcount m % 2 ^ 32 = popcount m := Nat.mod_eq_of_lt (by omega)
        rw [hmod]
        have : (g.avail_rbg + 2 ^ 32 - popcount m) % 2 ^ 32 = g.avail_rbg - popcount m := by
          have e : g.avail_rbg + 2 ^ 32 - popcount m = (g.avail_rbg - popcount m) + 2 ^ 32 := by
            omega
          rw [e, Nat.add_mod_right]
          exact Nat.mod_eq_of_lt (by omega)
        rw [this]
        omega
    · rw [(alloc_dl_data_collision g user m hcol).2]
      exact ⟨h1, h2, h3⟩

end tti_grid_t

/-- C1: in every grid state reachable from `new_tti` by any sequence of `alloc_dci` calls,
`get_allocs` reports the committed nodes in order, the union of `current_mask` over the
reported nodes equals the reported cumulative mask, which is the `total_mask` of the last
node, and the `current_mask` of two distinct reported nodes have no set bit in common. -/
theorem pdcch_get_allocs_masks (c : tti_consts_t) (g : pdcch_grid_t)
    (h : pdcch_grid_t.reachable c g) :
    ∃ (vec : List pdcch_grid_t.alloc_t) (tot : pdcch_mask_t),
      g.get_allocs 0 = some (vec, tot) ∧
      vec = g.dci_alloc_tree.map Prod.snd ∧
      vec.length = g.nof_allocs ∧
      (vec.map pdcch_grid_t.alloc_t.current_mask).foldl (fun x y => x ||| y) 0 = tot ∧
      tot = (match vec.getLast? with
        | some a => a.total_mask
        | none => 0) ∧
      ∀ (i j : Nat) (hi : i < vec.length) (hj : j < vec.length), i ≠ j →
        vec[i].current_mask &&& vec[j].current_mask = 0 := by
  obtain ⟨h1, h2, h3, h4, h5, h6⟩ := pdcch_grid_t.reachable_tree c g h
  have hpair : ∀ (i j : Nat) (hi : i < (g.dci_alloc_tree.map Prod.snd).length)
      (hj : j < (g.dci_alloc_tree.map Prod.snd).length), i ≠ j →
      (g.dci_alloc_tree.map Prod.snd)[i].current_mask
        &&& (g.dci_alloc_tree.map Prod.snd)[j].current_mask = 0 := by
    intro i j hi hj hij
    have hp := List.pairwise_iff_getElem.1 h5
    rcases Nat.lt_or_gt_of_ne hij with hlt | hgt
    · exact hp i j hi hj hlt
    · rw [Nat.and_comm]
      exact hp j i hj hi hgt
  refine ⟨g.dci_alloc_tree.map Prod.snd, g.cum_mask, ?_, rfl, ?_, h6,
    pdcch_grid_t.cum_mask_eq g, hpair⟩
  · unfold pdcch_grid_t.get_allocs
    by_cases hemp : g.dci_alloc_tree = []
    · simp [h1, h2, hemp, pdcch_grid_t.cum_mask]
    · have hpos : 0 < g.dci_alloc_tree.length := List.length_pos.2 hemp
      have hne : ¬ (g.prev_start = g.prev_end) := by omega
      have hidx : g.prev_start + 0 = g.dci_alloc_tree.length - 1 := by omega
      have hlt : g.dci_alloc_tree.length - 1 < g.dci_alloc_tree.length := by omega
      have hget : g.dci_alloc_tree[g.dci_alloc_tree.length - 1]?
          = some g.dci_alloc_tree[g.dci_alloc_tree.length - 1] :=
        List.getElem?_eq_getElem hlt
      have hchain := pdcch_grid_t.chain_to_root_reachable g.dci_alloc_tree h4
        (g.dci_alloc_tree.length - 1) g.dci_alloc_tree.length hlt (by omega)
      have hsucc : g.dci_alloc_tree.length - 1 + 1 = g.dci_alloc_tree.length := by omega
      rw [hsucc, List.take_length] at hchain
      have hcum : g.cum_mask = g.dci_alloc_tree[g.dci_alloc_tree.length - 1].2.total_mask := by
        unfold pdcch_grid_t.cum_mask
        rw [List.getLast?_eq_getElem?, hget]
      simp only [hne, if_false, hidx, hget, hchain, List.reverse_reverse, hcum]
  · simp [pdcch_grid_t.nof_allocs, h3]

/-- Witness for C1: the example grid after a broadcast and a per-user placement. -/
theorem pdcch_get_allocs_masks_witness :
    pdcch_grid_t.reachable example_consts example_pdcch_state ∧
    ∃ (vec : List pdcch_grid_t.alloc_t) (tot : pdcch_mask_t),
      example_pdcch_state.get_allocs 0 = some (vec, tot) ∧
      vec = example_pdcch_state.dci_alloc_tree.map Prod.snd ∧
      vec.length = example_pdcch_state.nof_allocs ∧
      (vec.map pdcch_grid_t.alloc_t.current_mask).foldl (fun x y => x ||| y) 0 = tot ∧
      tot = (match vec.getLast? with
        | some a => a.total_mask
        | none => 0) ∧
      ∀ (i j : Nat) (hi : i < vec.length) (hj : j < vec.length), i ≠ j →
        vec[i].current_mask &&& vec[j].current_mask = 0 :=
  have hr : pdcch_grid_t.reachable example_consts example_pdcch_state :=
    pdcch_grid_t.reachable.alloc_dci _ _ _ _
      (pdcch_grid_t.reachable.alloc_dci _ _ _ _
        (pdcch_grid_t.reachable.new_tti example_pdcch_grid 100 1))
  ⟨hr, pdcch_get_allocs_masks example_consts example_pdcch_state hr⟩

/-- C2, as stated, fails: user A holds group 0 and control-channel element 0; of the two
successive `alloc_dl_data` calls that follow, with the overlapping masks `{3, 4}` and
`{4, 5}`, the first is turned down with `DCI_COLLISION` (the only candidate of user C
covers element 0), and the second then succeeds and changes the downlink mask. -/
theorem alloc_dl_data_overlap_counterexample :
    (24 : Nat) &&& 48 ≠ 0 ∧
    ((example_tti_start.alloc_dl_data example_userA 1).2.alloc_dl_data example_userC 24).1
      = alloc_outcome_t.of_result_enum alloc_outcome_t.result_enum.DCI_COLLISION ∧
    (((example_tti_start.alloc_dl_data example_userA 1).2.alloc_dl_data
        example_userC 24).2.alloc_dl_data example_userB 48).1
      = alloc_outcome_t.of_result_enum alloc_outcome_t.result_enum.SUCCESS ∧
    (((example_tti_start.alloc_dl_data example_userA 1).2.alloc_dl_data
        example_userC 24).2.alloc_dl_data example_userB 48).1
      ≠ alloc_outcome_t.of_result_enum alloc_outcome_t.result_enum.RB_COLLISION ∧
    ((example_tti_start.alloc_dl_data example_userA 1).2.alloc_dl_data
        example_userC 24).2.dl_mask = 1 ∧
    (((example_tti_start.alloc_dl_data example_userA 1).2.alloc_dl_data
        example_userC 24).2.alloc_dl_data example_userB 48).2.dl_mask = 49 := by
  decide

/-- C2, amended: for every grid state, user and mask `m` that intersects the current
downlink mask, `alloc_dl_data(user, m)` returns `RB_COLLISION` and leaves the whole grid
(downlink mask, `avail_rbg`, PDCCH grid) as it was; in particular, of two successive
`alloc_dl_data` calls with overlapping masks of which the first returned `SUCCESS`, the
second returns `RB_COLLISION` and the grid equals the grid after the first call. -/
theorem alloc_dl_data_rb_collision (g : tti_grid_t) (user : sched_ue) (m : rbgmask_t)
    (h : g.dl_mask &&& m ≠ 0) :
    ((g.alloc_dl_data user m).1
        = alloc_outcome_t.of_result_enum alloc_outcome_t.result_enum.RB_COLLISION ∧
      (g.alloc_dl_data user m).2 = g) ∧
    (∀ (g0 : tti_grid_t) (u1 u2 : sched_ue) (m1 m2 : rbgmask_t), m1 &&& m2 ≠ 0 →
      (g0.alloc_dl_data u1 m1).1
        = alloc_outcome_t.of_result_enum alloc_outcome_t.result_enum.SUCCESS →
      ((g0.alloc_dl_data u1 m1).2.alloc_dl_data u2 m2).1
          = alloc_outcome_t.of_result_enum alloc_outcome_t.result_enum.RB_COLLISION ∧
        ((g0.alloc_dl_data u1 m1).2.alloc_dl_data u2 m2).2 = (g0.alloc_dl_data u1 m1).2) := by
  refine ⟨tti_grid_t.alloc_dl_data_collision g user m h, ?_⟩
  · intro g0 u1 u2 m1 m2 hov hsucc
    apply tti_grid_t.alloc_dl_data_collision
    by_cases hcol : g0.dl_mask &&& m1 = 0
    · cases hdci : (g0.pdcch_alloc.alloc_dci alloc_type_t.DL_DATA u1.aggr_level
          (some u1)).1 with
      | false =>
        rw [(tti_grid_t.alloc_dl_data_dci_fail g0 u1 m1 hcol hdci).1] at hsucc
        exact absurd hsucc (by decide)
      | true =>
        rw [tti_grid_t.alloc_dl_data_commit g0 u1 m1 hcol hdci]
        simp only
        intro hzero
        exact hov ((or_and_eq_zero_iff g0.dl_mask m1 m2).1 hzero).2
    · rw [(tti_grid_t.alloc_dl_data_collision g0 u1 m1 hcol).1] at hsucc
      exact absurd hsucc (by decide)

/-- Witness for C2 amended: after user A took the groups `{3, 4}`, user B asks for
`{4, 5}`. -/
theorem alloc_dl_data_rb_collision_witness :
    (example_tti_start.alloc_dl_data example_userA 24).2.dl_mask &&& 48 ≠ 0 ∧
    ((example_tti_start.alloc_dl_data example_userA 24).2.alloc_dl_data example_userB 48).1
      = alloc_outcome_t.of_result_enum alloc_outcome_t.result_enum.RB_COLLISION ∧
    ((example_tti_start.alloc_dl_data example_userA 24).2.alloc_dl_data example_userB 48).2
      = (example_tti_start.alloc_dl_data example_userA 24).2 :=
  ⟨by decide,
    (alloc_dl_data_rb_collision (example_tti_start.alloc_dl_data example_userA 24).2
      example_userB 48 (by decide)).1⟩

/-- C3: two-phase commit: for every grid state, user and mask `m` disjoint from the current
downlink mask, if the PDCCH placement for the user fails then `alloc_dl_data(user, m)`
returns `DCI_COLLISION` and the grid (downlink mask and `avail_rbg` included) is unchanged;
if the placement succeeds, the outcome is `SUCCESS`, the new mask is the old mask OR `m`,
and `avail_rbg` is decreased by `popcount(m)`: in `uint32_t` arithmetic always, and as a
number whenever `popcount(m)` does not exceed it. -/
theorem alloc_dl_data_two_phase (g : tti_grid_t) (user : sched_ue) (m : rbgmask_t)
    (hfree : g.dl_mask &&& m = 0) :
    ((g.pdcch_alloc.alloc_dci alloc_type_t.DL_DATA user.aggr_level (some user)).1 = false →
      (g.alloc_dl_data user m).1
          = alloc_outcome_t.of_result_enum alloc_outcome_t.result_enum.DCI_COLLISION ∧
        (g.alloc_dl_data user m).2 = g) ∧
    ((g.pdcch_alloc.alloc_dci alloc_type_t.DL_DATA user.aggr_level (some user)).1 = true →
      (g.alloc_dl_data user m).1
          = alloc_outcome_t.of_result_enum alloc_outcome_t.result_enum.SUCCESS ∧
        (g.alloc_dl_data user m).2.dl_mask = g.dl_mask ||| m ∧
        (g.alloc_dl_data user m).2.avail_rbg
          = (g.avail_rbg + 2 ^ 32 - popcount m % 2 ^ 32) % 2 ^ 32 ∧
        (popcount m ≤ g.avail_rbg → g.avail_rbg < 2 ^ 32 →
          (g.alloc_dl_data user m).2.avail_rbg + popcount m = g.avail_rbg) ∧
        (g.alloc_dl_data user m).2.pdcch_alloc
          = (g.pdcch_alloc.alloc_dci alloc_type_t.DL_DATA user.aggr_level (some user)).2) := by
  refine ⟨fun hdci => tti_grid_t.alloc_dl_data_dci_fail g user m hfree hdci, fun hdci => ?_⟩
  rw [tti_grid_t.alloc_dl_data_commit g user m hfree hdci]
  refine ⟨rfl, rfl, rfl, ?_, rfl⟩
  intro hle hlt
  simp only
  have hmod : popcount m % 2 ^ 32 = popcount m := Nat.mod_eq_of_lt (by omega)
  rw [hmod]
  have e : g.avail_rbg + 2 ^ 32 - popcount m = (g.avail_rbg - popcount m) + 2 ^ 32 := by
    omega
  rw [e, Nat.add_mod_right, Nat.mod_eq_of_lt (by omega)]
  omega

/-- Witness for C3: user A asks for the free groups `{3, 4}` at the start of a cycle. -/
theorem alloc_dl_data_two_phase_witness :
    example_tti_start.dl_mask &&& 24 = 0 ∧
    (example_tti_start.alloc_dl_data example_userA 24).1
      = alloc_outcome_t.of_result_enum alloc_outcome_t.result_enum.SUCCESS ∧
    (example_tti_start.alloc_dl_data example_userA 24).2.dl_mask
      = example_tti_start.dl_mask ||| 24 :=
  have h := (alloc_dl_data_two_phase example_tti_start example_userA 24 (by decide)).2
    (by decide)
  ⟨by decide, h.1, h.2.1⟩

/-- C4: in every grid state reachable from `new_tti` by any sequence of `alloc_dl_data`
calls, successful or failed, `get_avail_rbgs() + popcount(get_dl_mask())` equals the total
number of resource-block groups `nof_rbgs` (a `uint32_t`; the requested masks are bitsets
over these `nof_rbgs` groups). -/
theorem avail_rbgs_plus_popcount (c : tti_consts_t) (g : tti_grid_t)
    (h : tti_grid_t.reachable c g) :
    g.get_avail_rbgs + popcount g.get_dl_mask = g.nof_rbgs :=
  (tti_grid_t.reachable_inv c g h).1

/-- Witness for C4: the example grid after user A took `{3, 4}`, user B was turned down
for `{4, 5}` and user C was turned down for lack of a free control-channel candidate. -/
theorem avail_rbgs_plus_popcount_witness :
    tti_grid_t.reachable example_consts
      (((example_tti_start.alloc_dl_data example_userA 24).2.alloc_dl_data
        example_userB 48).2.alloc_dl_data example_userC 3).2 ∧
    (((example_tti_start.alloc_dl_data example_userA 24).2.alloc_dl_data
        example_userB 48).2.alloc_dl_data example_userC 3).2.get_avail_rbgs
      + popcount (((example_tti_start.alloc_dl_data example_userA 24).2.alloc_dl_data
        example_userB 48).2.alloc_dl_data example_userC 3).2.get_dl_mask = 25 :=
  have h0 : tti_grid_t.reachable example_consts example_tti_start :=
    tti_grid_t.reachable.new_tti example_tti_grid 100 1 (by decide)
  have h1 := tti_grid_t.reachable.alloc_dl_data _ example_userA 24 h0 (by decide)
  have h2 := tti_grid_t.reachable.alloc_dl_data _ example_userB 48 h1 (by decide)
  have h3 := tti_grid_t.reachable.alloc_dl_data _ example_userC 3 h2 (by decide)
  ⟨h3, avail_rbgs_plus_popcount example_consts _ h3⟩

/-- C5: for every grid state, every `tti_rx` and every `start_cfi`, immediately after
`new_tti(tti_rx, start_cfi)` the PDCCH grid has `nof_allocs() = 0` and no stored node, the
downlink and uplink masks have no set bit, and `get_avail_rbgs()` equals `nof_rbgs`;
calling `new_tti` twice with the same arguments gives the same state as calling it
once. -/
theorem new_tti_resets (c : tti_consts_t) (g : tti_grid_t) (tti_rx_ start_cfi : Nat) :
    (g.new_tti c tti_rx_ start_cfi).get_pdcch_grid.nof_allocs = 0 ∧
    (g.new_tti c tti_rx_ start_cfi).get_pdcch_grid.dci_alloc_tree = [] ∧
    (g.new_tti c tti_rx_ start_cfi).get_pdcch_grid.nof_alloc_combinations = 0 ∧
    (g.new_tti c tti_rx_ start_cfi).get_dl_mask = 0 ∧
    (g.new_tti c tti_rx_ start_cfi).get_ul_mask = 0 ∧
    (∀ i : Nat, (g.new_tti c tti_rx_ start_cfi).get_dl_mask.testBit i = false) ∧
    (∀ i : Nat, (g.new_tti c tti_rx_ start_cfi).get_ul_mask.testBit i = false) ∧
    (g.new_tti c tti_rx_ start_cfi).get_avail_rbgs = g.nof_rbgs ∧
    (g.new_tti c tti_rx_ start_cfi).nof_rbgs = g.nof_rbgs ∧
    (g.new_tti c tti_rx_ start_cfi).new_tti c tti_rx_ start_cfi
      = g.new_tti c tti_rx_ start_cfi := by
  refine ⟨rfl, rfl, ?_, rfl, rfl, ?_, ?_, rfl, rfl, rfl⟩
  · simp [tti_grid_t.new_tti, tti_grid_t.get_pdcch_grid, pdcch_grid_t.new_tti,
      pdcch_grid_t.reset, pdcch_grid_t.nof_alloc_combinations]
  · intro i
    simp [tti_grid_t.new_tti, tti_grid_t.get_dl_mask]
  · intro i
    simp [tti_grid_t.new_tti, tti_grid_t.get_ul_mask]

end srsenb

/-! ## Theorems: allocation outcome -/

namespace srsenb

/-- C7: a default-constructed `alloc_outcome_t` has result `ERROR`; for every result value
`e`, `alloc_outcome_t(e)` converts back to `e`, and its boolean view is true exactly when
`e` is `SUCCESS`; so the default outcome reads as a failure. -/
theorem alloc_outcome_t_views :
    alloc_outcome_t.default_ctor.result = alloc_outcome_t.result_enum.ERROR ∧
    (∀ e : alloc_outcome_t.result_enum,
      (alloc_outcome_t.of_result_enum e).to_result_enum = e) ∧
    (∀ e : alloc_outcome_t.result_enum,
      ((alloc_outcome_t.of_result_enum e).to_bool = true ↔
        e = alloc_outcome_t.result_enum.SUCCESS)) ∧
    alloc_outcome_t.default_ctor.to_bool = false := by
  refine ⟨rfl, fun e => rfl, fun e => ?_, rfl⟩
  cases e <;> simp [alloc_outcome_t.of_result_enum, alloc_outcome_t.to_bool]

end srsenb

/-! ## Theorems: buffer pool -/

namespace srslte

namespace buffer_pool

theorem preallocate_length (heap : Nat → Nat) :
    ∀ (n i : Nat) (available l : List Nat),
      preallocate heap n i available = some l → l.length = available.length + n := by
  intro n
  induction n with
  | zero =>
    intro i available l h
    simp only [preallocate, Option.some.injEq] at h
    simp [← h]
  | succ n ih =>
    intro i available l h
    simp only [preallocate] at h
    split at h
    · exact absurd h (by simp)
    · have := ih _ _ _ h
      simp only [List.length_cons] at this
      omega

theorem construct_sizes (heap : Nat → Nat) (capacity_ : Int) (p : srslte.buffer_pool)
    (h : buffer_pool heap capacity_ = some p) :
    p.available.length = p.capacity ∧ p.used = [] := by
  unfold buffer_pool at h
  simp only at h
  split at h
  · exact absurd h (by simp)
  · next available hav =>
    have hl := preallocate_length heap _ _ _ _ hav
    simp only [Option.some.injEq] at h
    subst h
    simpa using hl

theorem allocate_sizes (p q : srslte.buffer_pool) (blocking : Bool) (b : Nat)
    (h : p.allocate blocking = some (b, q)) :
    q.available.length + q.used.length = p.available.length + p.used.length ∧
      q.capacity = p.capacity := by
  unfold allocate at h
  split at h
  · next top rest hav =>
    simp only [Option.some.injEq, Prod.mk.injEq] at h
    obtain ⟨-, rfl⟩ := h
    simp [hav]
    omega
  · next hav =>
    split at h
    · exact absurd h (by simp)
    · simp only [Option.some.injEq, Prod.mk.injEq] at h
      obtain ⟨-, rfl⟩ := h
      exact ⟨rfl, rfl⟩

theorem indexOf_ne_length_iff (l : List Nat) (b : Nat) :
    l.indexOf b ≠ l.length ↔ b ∈ l := by
  rw [← List.indexOf_lt_length]
  have := @List.indexOf_le_length _ _ b l
  omega

theorem deallocate_sizes (p : srslte.buffer_pool) (b : Nat) :
    (p.deallocate b).2.available.length + (p.deallocate b).2.used.length
        = p.available.length + p.used.length ∧
      (p.deallocate b).2.capacity = p.capacity := by
  unfold deallocate
  by_cases hmem : b ∈ p.used
  · have hne := (indexOf_ne_length_iff p.used b).2 hmem
    have hlt : p.used.indexOf b < p.used.length := List.indexOf_lt_length.2 hmem
    simp only [hne, ne_eq, not_false_eq_true, if_true, List.length_cons, and_true]
    rw [List.length_eraseIdx]
    simp only [hlt, if_true]
    omega
  · have heq : p.used.indexOf b = p.used.length := by
      by_contra hcon
      exact hmem ((indexOf_ne_length_iff p.used b).1 hcon)
    simp [heq]

end buffer_pool

/-- C8: the buffer pool has fixed capacity: in every state reachable from construction by
any sequence of `allocate` calls and `deallocate` calls with arbitrary pointer arguments,
`available.size() + used.size()` equals `capacity`, hence `nof_available_pdus()` never
exceeds `capacity`. -/
theorem buffer_pool_fixed_capacity (p : buffer_pool) (h : buffer_pool.reachable p) :
    p.available.length + p.used.length = p.capacity ∧
      p.nof_available_pdus ≤ p.capacity := by
  have key : p.available.length + p.used.length = p.capacity := by
    induction h with
    | construct heap capacity_ p hp =>
      obtain ⟨h1, h2⟩ := buffer_pool.construct_sizes heap capacity_ p hp
      simp [h1, h2]
    | allocate p blocking b q _ hq ih =>
      obtain ⟨h1, h2⟩ := buffer_pool.allocate_sizes p q blocking b hq
      omega
    | deallocate p b _ ih =>
      obtain ⟨h1, h2⟩ := buffer_pool.deallocate_sizes p b
      omega
  refine ⟨key, ?_⟩
  unfold buffer_pool.nof_available_pdus
  have := Nat.mod_le p.available.length (2 ^ 32)
  omega

/-- Witness for C8: the pool built with capacity 2 over the heap `i ↦ i + 1`, after one
`allocate`, then a `deallocate` of a pointer never handed out. -/
theorem buffer_pool_fixed_capacity_witness :
    buffer_pool.reachable { available := [1], used := [2], capacity := 2 } ∧
    ((([1] : List Nat).length + ([2] : List Nat).length = 2) ∧
      buffer_pool.nof_available_pdus { available := [1], used := [2], capacity := 2 } ≤ 2) :=
  have h0 : buffer_pool.reachable { available := [2, 1], used := [], capacity := 2 } :=
    buffer_pool.reachable.construct (fun i => i + 1) 2 _ (by decide)
  have h1 : buffer_pool.reachable { available := [1], used := [2], capacity := 2 } :=
    buffer_pool.reachable.allocate _ false 2 _ h0 (by decide)
  have h2 : buffer_pool.reachable { available := [1], used := [2], capacity := 2 } :=
    buffer_pool.reachable.deallocate _ 7 h1
  ⟨h2, buffer_pool_fixed_capacity _ h2⟩

/-- C9: non-blocking acquisition: for every pool state, `allocate(name, false)` returns; it
returns null and leaves `available` and `used` unchanged if and only if `available` is
empty; otherwise it returns the buffer on top of the `available` stack, removes it from
`available` and appends it at the end of `used`, leaving all other entries (and the
capacity) as they were. -/
theorem buffer_pool_allocate_nonblocking (p : buffer_pool) :
    ∃ (b : Nat) (q : buffer_pool), p.allocate false = some (b, q) ∧
      ((b = nullptr ∧ q.available = p.available ∧ q.used = p.used) ↔ p.available = []) ∧
      (∀ (top : Nat) (rest : List Nat), p.available = top :: rest →
        b = top ∧ q.available = rest ∧ q.used = p.used ++ [top]) ∧
      q.capacity = p.capacity := by
  unfold buffer_pool.allocate
  cases hav : p.available with
  | nil =>
    refine ⟨nullptr, p, by simp, ?_, ?_, rfl⟩
    · simp [hav]
    · intro top rest h
      exact absurd h (by simp)
  | cons top rest =>
    refine ⟨top, { p with used := p.used ++ [top], available := rest }, by simp, ?_, ?_, rfl⟩
    · simp
    · intro top2 rest2 h
      simp only [List.cons.injEq] at h
      obtain ⟨rfl, rfl⟩ := h
      exact ⟨rfl, rfl, rfl⟩

/-- C10: for every pool state and every pointer `b`, `deallocate(b)` returns true if and
only if `b` is currently in `used`; when it returns false the pool is unchanged; when it
returns true, the first occurrence of `b`, and only that one, is removed from `used` (the
order of the other entries is kept), and `b` becomes the top of `available`.
`byte_buffer_pool::deallocate(nullptr)` changes nothing. -/
theorem buffer_pool_deallocate (p : buffer_pool) (b : Nat) :
    ((p.deallocate b).1 = true ↔ b ∈ p.used) ∧
    ((p.deallocate b).1 = false → (p.deallocate b).2 = p) ∧
    ((p.deallocate b).1 = true →
      (∃ l1 l2 : List Nat, p.used = l1 ++ b :: l2 ∧ b ∉ l1 ∧
        (p.deallocate b).2.used = l1 ++ l2) ∧
      (p.deallocate b).2.used.count b + 1 = p.used.count b ∧
      (p.deallocate b).2.available = b :: p.available ∧
      (p.deallocate b).2.capacity = p.capacity) ∧
    (∀ s : byte_buffer_pool, s.deallocate nullptr = s) := by
  have hiff := buffer_pool.indexOf_ne_length_iff p.used b
  refine ⟨?_, ?_, ?_, fun s => by simp [byte_buffer_pool.deallocate]⟩
  · unfold buffer_pool.deallocate
    by_cases hmem : b ∈ p.used
    · simp [hiff.2 hmem, hmem]
    · have : ¬ (p.used.indexOf b ≠ p.used.length) := fun hc => hmem (hiff.1 hc)
      simp only [this, if_false, hmem]
      simp
  · unfold buffer_pool.deallocate
    by_cases hne : p.used.indexOf b ≠ p.used.length
    · simp [hne]
    · simp [hne]
  · intro htrue
    have hne : p.used.indexOf b ≠ p.used.length := by
      by_contra hcon
      unfold buffer_pool.deallocate at htrue
      simp [hcon] at htrue
    have hmem : b ∈ p.used := hiff.1 hne
    have hused : (p.deallocate b).2.used = p.used.eraseIdx (p.used.indexOf b) := by
      unfold buffer_pool.deallocate
      simp [hne]
    have hav : (p.deallocate b).2.available = b :: p.available := by
      unfold buffer_pool.deallocate
      simp [hne]
    have hcap : (p.deallocate b).2.capacity = p.capacity := by
      unfold buffer_pool.deallocate
      simp [hne]
    have herase : p.used.eraseIdx (p.used.indexOf b) = p.used.erase b :=
      List.eraseIdx_indexOf_eq_erase b p.used
    obtain ⟨l1, l2, hnot, hsplit, hers⟩ := List.exists_erase_eq hmem
    refine ⟨⟨l1, l2, hsplit, hnot, by rw [hused, herase, hers]⟩, ?_, hav, hcap⟩
    rw [hused, herase, List.count_erase_self]
    have : 0 < p.used.count b := List.count_pos_iff.2 hmem
    omega

end srslte

/-! ## Theorems: first-fit placement in the PDCCH grid -/

namespace srsenb

theorem pdcch_grid_t.alloc_dci_true_eq (g : pdcch_grid_t) (alloc_type : alloc_type_t)
    (aggr_idx : Nat) (user : Option sched_ue)
    (h : (g.alloc_dci alloc_type aggr_idx user).1 = true) :
    g.fits_nof_cces aggr_idx = true ∧
    ∃ (dci_locs : sched_dci_cce_t) (startpos rnti : Nat),
      g.get_cce_loc_table alloc_type user = some dci_locs ∧
      (dci_locs.candidates aggr_idx).find?
        (fun startpos => decide (g.cum_mask &&& cce_mask startpos aggr_idx = 0))
          = some startpos ∧
      (g.alloc_dci alloc_type aggr_idx user).2
        = { g with
            dci_alloc_tree := g.dci_alloc_tree ++ [(g.last_node_idx,
              ⟨rnti, ⟨aggr_idx, startpos⟩, cce_mask startpos aggr_idx,
                g.cum_mask ||| cce_mask startpos aggr_idx⟩)],
            prev_start := g.dci_alloc_tree.length,
            prev_end := g.dci_alloc_tree.length + 1,
            nof_dci_allocs := g.nof_dci_allocs + 1 } := by
  have hfit : g.fits_nof_cces aggr_idx = true := by
    cases hv : g.fits_nof_cces aggr_idx with
    | true => rfl
    | false =>
      unfold pdcch_grid_t.alloc_dci at h
      rw [if_pos hv] at h
      exact absurd h (by simp)
  have hne : ¬ (g.fits_nof_cces aggr_idx = false) := by simp [hfit]
  refine ⟨hfit, ?_⟩
  unfold pdcch_grid_t.alloc_dci at h ⊢
  rw [if_neg hne] at h ⊢
  cases hloc : g.get_cce_loc_table alloc_type user with
  | none =>
    simp only [hloc] at h
    exact absurd h (by simp)
  | some dci_locs =>
    simp only [hloc] at h ⊢
    cases hfind : (dci_locs.candidates aggr_idx).find?
        (fun startpos => decide (g.cum_mask &&& cce_mask startpos aggr_idx = 0)) with
    | none =>
      simp only [hfind] at h
      exact absurd h (by simp)
    | some startpos => exact ⟨dci_locs, startpos, _, rfl, hfind, rfl⟩

theorem pdcch_grid_t.nof_alloc_combinations_one (a : Nat) :
    (a + 1 + 2 ^ 64 - a % 2 ^ 64) % 2 ^ 64 = 1 := by
  have h1 := Nat.mod_add_div a (2 ^ 64)
  have h2 := Nat.mod_lt a (show 0 < 2 ^ 64 by decide)
  have e : a + 1 + 2 ^ 64 - a % 2 ^ 64 = 1 + 2 ^ 64 * (a / 2 ^ 64 + 1) := by
    rw [Nat.mul_add, Nat.mul_one]
    omega
  rw [e, Nat.add_mul_mod_self_left]
  decide

/-- C13: for every grid state and every successful `alloc_dci` call, the candidate accepted
is the first one in table order whose mask does not intersect the cumulative mask of the
most recently committed node; exactly one node is appended to the node sequence, with that
node as parent and `total_mask` = the parent's `total_mask` OR `current_mask`, and
`nof_allocs()` grows by exactly one; hence after any sequence of calls in a cycle the
number of stored nodes equals `nof_allocs()` and `nof_alloc_combinations()` is at most
1. -/
theorem alloc_dci_first_fit (g : pdcch_grid_t) (alloc_type : alloc_type_t) (aggr_idx : Nat)
    (user : Option sched_ue) (h : (g.alloc_dci alloc_type aggr_idx user).1 = true) :
    (∃ (dci_locs : sched_dci_cce_t) (skipped rest : List Nat) (startpos : Nat)
        (node : pdcch_grid_t.tree_node_t),
      g.get_cce_loc_table alloc_type user = some dci_locs ∧
      dci_locs.candidates aggr_idx = skipped ++ startpos :: rest ∧
      (∀ x ∈ skipped, g.cum_mask &&& cce_mask x aggr_idx ≠ 0) ∧
      g.cum_mask &&& cce_mask startpos aggr_idx = 0 ∧
      (g.alloc_dci alloc_type aggr_idx user).2.dci_alloc_tree = g.dci_alloc_tree ++ [node] ∧
      node.1 = (g.dci_alloc_tree.length : Int) - 1 ∧
      node.2.dci_pos = { L := aggr_idx, ncce := startpos } ∧
      node.2.current_mask = cce_mask startpos aggr_idx ∧
      node.2.total_mask = g.cum_mask ||| node.2.current_mask ∧
      (∀ parent : pdcch_grid_t.tree_node_t, g.dci_alloc_tree.getLast? = some parent →
        node.2.total_mask = parent.2.total_mask ||| node.2.current_mask) ∧
      (g.dci_alloc_tree = [] → node.2.total_mask = node.2.current_mask)) ∧
    (g.alloc_dci alloc_type aggr_idx user).2.nof_allocs = g.nof_allocs + 1 ∧
    (g.alloc_dci alloc_type aggr_idx user).2.nof_alloc_combinations = 1 ∧
    (∀ (c : tti_consts_t) (g0 : pdcch_grid_t), pdcch_grid_t.reachable c g0 →
      g0.dci_alloc_tree.length = g0.nof_allocs ∧ g0.nof_alloc_combinations ≤ 1) := by
  obtain ⟨-, dci_locs, startpos, rnti, hloc, hfind, hstate⟩ :=
    pdcch_grid_t.alloc_dci_true_eq g alloc_type aggr_idx user h
  obtain ⟨hp, skipped, rest, hsplit, hskip⟩ := List.find?_eq_some.1 hfind
  have hfree : g.cum_mask &&& cce_mask startpos aggr_idx = 0 := by simpa using hp
  refine ⟨⟨dci_locs, skipped, rest, startpos,
    (g.last_node_idx, ⟨rnti, ⟨aggr_idx, startpos⟩, cce_mask startpos aggr_idx,
      g.cum_mask ||| cce_mask startpos aggr_idx⟩),
    hloc, hsplit, ?_, hfree, ?_, rfl, rfl, rfl, rfl, ?_, ?_⟩, ?_, ?_, ?_⟩
  · intro x hx
    have := hskip x hx
    simpa using this
  · rw [hstate]
  · intro parent hparent
    simp only [pdcch_grid_t.cum_mask, hparent]
  · intro hemp
    simp only [pdcch_grid_t.cum_mask, hemp, List.getLast?_nil, Nat.zero_or]
  · rw [hstate]
    rfl
  · rw [hstate]
    simp only [pdcch_grid_t.nof_alloc_combinations]
    exact pdcch_grid_t.nof_alloc_combinations_one _
  · intro c g0 hr
    obtain ⟨h1, h2, h3, -, -, -⟩ := pdcch_grid_t.reachable_tree c g0 hr
    refine ⟨by rw [pdcch_grid_t.nof_allocs, h3], ?_⟩
    simp only [pdcch_grid_t.nof_alloc_combinations, h1, h2]
    cases hlen : g0.dci_alloc_tree.length with
    | zero => decide
    | succ k =>
      have := pdcch_grid_t.nof_alloc_combinations_one k
      simp only [Nat.add_sub_cancel]
      omega

/-- Witness for C13: the broadcast placement of two elements at the start of a cycle of
the example grid. -/
theorem alloc_dci_first_fit_witness :
    ((example_pdcch_grid.new_tti example_consts 100 1).alloc_dci
        alloc_type_t.DL_BC 1 none).1 = true ∧
    ((example_pdcch_grid.new_tti example_consts 100 1).alloc_dci
        alloc_type_t.DL_BC 1 none).2.nof_allocs
      = (example_pdcch_grid.new_tti example_consts 100 1).nof_allocs + 1 ∧
    ((example_pdcch_grid.new_tti example_consts 100 1).alloc_dci
        alloc_type_t.DL_BC 1 none).2.nof_alloc_combinations = 1 :=
  have h := alloc_dci_first_fit (example_pdcch_grid.new_tti example_consts 100 1)
    alloc_type_t.DL_BC 1 none (by decide)
  ⟨by decide, h.2.1, h.2.2.1⟩

/-- C14: for every grid state, allocation type and aggregation index `aggr_idx` whose
element requirement `2 ^ aggr_idx` exceeds `nof_cces()` of the current format, `alloc_dci`
returns false, which `alloc_dl_data` reports as `DCI_COLLISION`; and every failing
`alloc_dci` call leaves the grid, so the node sequence, `nof_allocs()`,
`nof_alloc_combinations()` and `get_cfi()`, unchanged. -/
theorem alloc_dci_exceeds_nof_cces (g : pdcch_grid_t) (alloc_type : alloc_type_t)
    (aggr_idx : Nat) (user : Option sched_ue) (n : Nat)
    (hn : g.nof_cces = some n) (hex : n < 2 ^ aggr_idx) :
    (g.alloc_dci alloc_type aggr_idx user).1 = false ∧
    (g.alloc_dci alloc_type aggr_idx user).2 = g ∧
    (∀ (t : tti_grid_t) (u : sched_ue) (m : rbgmask_t), t.pdcch_alloc = g →
      u.aggr_level = aggr_idx → t.dl_mask &&& m = 0 →
      (t.alloc_dl_data u m).1
          = alloc_outcome_t.of_result_enum alloc_outcome_t.result_enum.DCI_COLLISION ∧
        (t.alloc_dl_data u m).2 = t) ∧
    (∀ (g0 : pdcch_grid_t) (alloc_type0 : alloc_type_t) (aggr_idx0 : Nat)
        (user0 : Option sched_ue), (g0.alloc_dci alloc_type0 aggr_idx0 user0).1 = false →
      (g0.alloc_dci alloc_type0 aggr_idx0 user0).2 = g0 ∧
      (g0.alloc_dci alloc_type0 aggr_idx0 user0).2.dci_alloc_tree = g0.dci_alloc_tree ∧
      (g0.alloc_dci alloc_type0 aggr_idx0 user0).2.nof_allocs = g0.nof_allocs ∧
      (g0.alloc_dci alloc_type0 aggr_idx0 user0).2.nof_alloc_combinations
        = g0.nof_alloc_combinations ∧
      (g0.alloc_dci alloc_type0 aggr_idx0 user0).2.get_cfi = g0.get_cfi) := by
  have hfit : g.fits_nof_cces aggr_idx = false := by
    unfold pdcch_grid_t.fits_nof_cces
    rw [hn]
    simp only [decide_eq_false_iff_not]
    omega
  have hfail : ∀ (at0 : alloc_type_t) (u0 : Option sched_ue),
      g.alloc_dci at0 aggr_idx u0 = (false, g) := by
    intro at0 u0
    unfold pdcch_grid_t.alloc_dci
    rw [if_pos hfit]
  refine ⟨by rw [hfail], by rw [hfail], ?_, ?_⟩
  · intro t u m ht hu hfree
    apply tti_grid_t.alloc_dl_data_dci_fail t u m hfree
    rw [ht, hu, hfail]
  · intro g0 alloc_type0 aggr_idx0 user0 h0
    have hsame := pdcch_grid_t.alloc_dci_false_unchanged g0 alloc_type0 aggr_idx0 user0 h0
    refine ⟨hsame, ?_, ?_, ?_, ?_⟩ <;> rw [hsame]

/-- Witness for C14: a request for sixteen elements in the example grid, whose format 1 has
twelve. -/
theorem alloc_dci_exceeds_nof_cces_witness :
    example_pdcch_state.nof_cces = some 12 ∧ 12 < 2 ^ 4 ∧
    (example_pdcch_state.alloc_dci alloc_type_t.DL_DATA 4 (some example_userA)).1 = false ∧
    (example_pdcch_state.alloc_dci alloc_type_t.DL_DATA 4 (some example_userA)).2
      = example_pdcch_state :=
  have h := alloc_dci_exceeds_nof_cces example_pdcch_state alloc_type_t.DL_DATA 4
    (some example_userA) 12 (by decide) (by decide)
  ⟨by decide, by decide, h.1, h.2.1⟩

end srsenb

/-! ## Theorems: buffer pool, reuse and distinctness -/

namespace srslte
namespace buffer_pool

theorem preallocate_eq (heap : Nat → Nat) :
    ∀ (n i : Nat) (available l : List Nat),
      preallocate heap n i available = some l →
        l = ((List.range' i n).map heap).reverse ++ available ∧
          ∀ x ∈ (List.range' i n).map heap, x ≠ nullptr := by
  intro n
  induction n with
  | zero =>
    intro i available l h
    simp only [preallocate, Option.some.injEq] at h
    simp [← h]
  | succ n ih =>
    intro i available l h
    simp only [preallocate] at h
    split at h
    · exact absurd h (by simp)
    · next hnz =>
      obtain ⟨h1, h2⟩ := ih _ _ _ h
      refine ⟨?_, ?_⟩
      · rw [h1, List.range'_succ]
        simp
      · intro x hx
        rw [List.range'_succ] at hx
        simp only [List.map_cons, List.mem_cons] at hx
        rcases hx with rfl | hx
        · exact hnz
        · exact h2 x hx

theorem preallocate_some (heap : Nat → Nat) (hheap : ∀ i, heap i ≠ nullptr) :
    ∀ (n i : Nat) (available : List Nat),
      preallocate heap n i available
        = some (((List.range' i n).map heap).reverse ++ available) := by
  intro n
  induction n with
  | zero =>
    intro i available
    simp [preallocate]
  | succ n ih =>
    intro i available
    simp only [preallocate, hheap i, if_false]
    rw [ih, List.range'_succ]
    simp

theorem deallocate_of_mem (p : srslte.buffer_pool) (b : Nat) (h : b ∈ p.used) :
    p.deallocate b
      = (true, { p with used := p.used.erase b, available := b :: p.available }) := by
  unfold deallocate
  have hne := (indexOf_ne_length_iff p.used b).2 h
  simp only [hne, ne_eq, not_false_eq_true, if_true]
  rw [List.eraseIdx_indexOf_eq_erase]

theorem deallocate_of_not_mem (p : srslte.buffer_pool) (b : Nat) (h : b ∉ p.used) :
    p.deallocate b = (false, p) := by
  unfold deallocate
  have heq : p.used.indexOf b = p.used.length := by
    by_contra hcon
    exact h ((indexOf_ne_length_iff p.used b).1 hcon)
  simp [heq]

theorem allocate_perm (p q : srslte.buffer_pool) (blocking : Bool) (b : Nat)
    (h : p.allocate blocking = some (b, q)) :
    (q.available ++ q.used).Perm (p.available ++ p.used) ∧ q.capacity = p.capacity := by
  unfold allocate at h
  split at h
  · next top rest hav =>
    simp only [Option.some.injEq, Prod.mk.injEq] at h
    obtain ⟨-, rfl⟩ := h
    refine ⟨?_, rfl⟩
    simp only [hav]
    rw [← List.append_assoc]
    exact (List.perm_append_singleton top (rest ++ p.used))
  · split at h
    · exact absurd h (by simp)
    · simp only [Option.some.injEq, Prod.mk.injEq] at h
      obtain ⟨-, rfl⟩ := h
      exact ⟨List.Perm.refl _, rfl⟩

theorem deallocate_perm (p : srslte.buffer_pool) (b : Nat) :
    ((p.deallocate b).2.available ++ (p.deallocate b).2.used).Perm (p.available ++ p.used) ∧
      (p.deallocate b).2.capacity = p.capacity := by
  by_cases hmem : b ∈ p.used
  · rw [deallocate_of_mem p b hmem]
    refine ⟨?_, rfl⟩
    simp only [List.cons_append]
    have h1 : (b :: (p.available ++ p.used.erase b)).Perm (p.available ++ b :: p.used.erase b) :=
      List.perm_middle.symm
    exact h1.trans (List.Perm.append_left _ (List.perm_cons_erase hmem).symm)
  · rw [deallocate_of_not_mem p b hmem]
    exact ⟨List.Perm.refl _, rfl⟩

theorem reachable_from_perm (p0 p : srslte.buffer_pool) (h : reachable_from p0 p) :
    (p.available ++ p.used).Perm (p0.available ++ p0.used) ∧ p.capacity = p0.capacity := by
  induction h with
  | start => exact ⟨List.Perm.refl _, rfl⟩
  | allocate p blocking b q _ hq ih =>
    obtain ⟨h1, h2⟩ := allocate_perm p q blocking b hq
    exact ⟨h1.trans ih.1, h2.trans ih.2⟩
  | deallocate p b _ ih =>
    obtain ⟨h1, h2⟩ := deallocate_perm p b
    exact ⟨h1.trans ih.1, h2.trans ih.2⟩

theorem construct_eq (heap : Nat → Nat) (capacity_ : Int) (p : srslte.buffer_pool)
    (h : buffer_pool heap capacity_ = some p) :
    p.capacity = (if capacity_ > 0 then capacity_.toNat % 2 ^ 32 else POOL_SIZE) ∧
      p.available = ((List.range' 0 p.capacity).map heap).reverse ∧ p.used = [] ∧
      nullptr ∉ p.available := by
  unfold buffer_pool at h
  simp only at h
  split at h
  · exact absurd h (by simp)
  · next available hav =>
    obtain ⟨h1, h2⟩ := preallocate_eq heap _ _ _ _ hav
    simp only [Option.some.injEq] at h
    subst h
    simp only [List.append_nil] at h1
    refine ⟨rfl, h1, rfl, ?_⟩
    intro hmem
    simp only at hmem
    rw [h1, List.mem_reverse] at hmem
    exact h2 _ hmem rfl

theorem reachable_iff_from (p : srslte.buffer_pool) (h : reachable p) :
    ∃ (heap : Nat → Nat) (capacity_ : Int) (p0 : srslte.buffer_pool),
      buffer_pool heap capacity_ = some p0 ∧ reachable_from p0 p := by
  induction h with
  | construct heap capacity_ p hp => exact ⟨heap, capacity_, p, hp, reachable_from.start⟩
  | allocate p blocking b q _ hq ih =>
    obtain ⟨heap, capacity_, p0, h0, hr⟩ := ih
    exact ⟨heap, capacity_, p0, h0, reachable_from.allocate p blocking b q hr hq⟩
  | deallocate p b _ ih =>
    obtain ⟨heap, capacity_, p0, h0, hr⟩ := ih
    exact ⟨heap, capacity_, p0, h0, reachable_from.deallocate p b hr⟩

theorem reachable_no_null (p : srslte.buffer_pool) (h : reachable p) :
    nullptr ∉ p.available ∧ nullptr ∉ p.used ∧
      p.available.length + p.used.length = p.capacity ∧ p.capacity < 2 ^ 32 := by
  obtain ⟨heap, capacity_, p0, h0, hr⟩ := reachable_iff_from p h
  obtain ⟨hc, hav, hu, hnn⟩ := construct_eq heap capacity_ p0 h0
  obtain ⟨hperm, hcap⟩ := reachable_from_perm p0 p hr
  have hmem : nullptr ∉ p.available ++ p.used := by
    intro hm
    have := hperm.mem_iff.1 hm
    rw [hu, List.append_nil] at this
    exact hnn this
  have hlen := hperm.length_eq
  have hl0 : p0.available.length = p0.capacity := by
    rw [hav]
    simp
  have hbound : p0.capacity < 2 ^ 32 := by
    rw [hc]
    split
    · exact Nat.mod_lt _ (by decide)
    · decide
  refine ⟨fun hm => hmem (List.mem_append_left _ hm),
    fun hm => hmem (List.mem_append_right _ hm), ?_, by omega⟩
  simp only [List.length_append, hu, List.length_nil] at hlen
  omega

end buffer_pool

/-- C11: object reuse round trip: in every pool state reachable from construction (the
preallocated buffers being pairwise distinct) in which `available` is non-empty,
`allocate` returns a buffer `b`, `deallocate(b)` then returns true and restores the pool,
`available` stack and `used` list included, to what it was before the `allocate`, and the
next `allocate` returns the same buffer `b` again. -/
theorem buffer_pool_reuse_round_trip (heap : Nat → Nat) (capacity_ : Int)
    (p0 p : buffer_pool) (hc : buffer_pool.buffer_pool heap capacity_ = some p0)
    (hd : p0.available.Nodup) (hr : buffer_pool.reachable_from p0 p)
    (hne : p.available ≠ []) (blocking : Bool) :
    ∃ (b : Nat) (q : buffer_pool), p.allocate blocking = some (b, q) ∧
      (q.deallocate b).1 = true ∧
      (q.deallocate b).2.available = p.available ∧
      (q.deallocate b).2.used = p.used ∧
      (q.deallocate b).2 = p ∧
      (q.deallocate b).2.allocate blocking = some (b, q) := by
  obtain ⟨-, -, hu, -⟩ := buffer_pool.construct_eq heap capacity_ p0 hc
  obtain ⟨hperm, -⟩ := buffer_pool.reachable_from_perm p0 p hr
  have hnd : (p.available ++ p.used).Nodup := by
    rw [hperm.nodup_iff, hu, List.append_nil]
    exact hd
  cases hav : p.available with
  | nil => exact absurd hav hne
  | cons top rest =>
    have halloc : p.allocate blocking
        = some (top, { p with used := p.used ++ [top], available := rest }) := by
      unfold buffer_pool.allocate
      simp [hav]
    have hnot : top ∉ p.used := by
      rw [hav] at hnd
      intro hm
      have := (List.nodup_cons.1 hnd).1
      exact this (List.mem_append_right _ hm)
    have hmem : top ∈ p.used ++ [top] := by simp
    have hde := buffer_pool.deallocate_of_mem
      { p with used := p.used ++ [top], available := rest } top hmem
    have hers : (p.used ++ [top]).erase top = p.used := by
      rw [List.erase_append_right _ hnot]
      simp
    simp only [hers] at hde
    have hback : ({ p with used := p.used, available := top :: rest } : buffer_pool) = p := by
      cases p
      simp only at hav
      simp [hav]
    refine ⟨top, _, halloc, ?_, ?_, ?_, ?_, ?_⟩
    · rw [hde]
    · rw [hde]
    · rw [hde]
    · rw [hde]
      exact hback
    · rw [hde]
      simp only
      rw [hback]
      exact halloc

/-- Witness for C11: the pool of capacity 2 over the heap `i ↦ i + 1`, right after
construction. -/
theorem buffer_pool_reuse_round_trip_witness :
    ∃ (b : Nat) (q : buffer_pool),
      buffer_pool.allocate { available := [2, 1], used := [], capacity := 2 } false
        = some (b, q) ∧
      (q.deallocate b).1 = true ∧
      (q.deallocate b).2.available = [2, 1] ∧
      (q.deallocate b).2.used = [] ∧
      (q.deallocate b).2 = { available := [2, 1], used := [], capacity := 2 } ∧
      (q.deallocate b).2.allocate false = some (b, q) :=
  buffer_pool_reuse_round_trip (fun i => i + 1) 2
    { available := [2, 1], used := [], capacity := 2 }
    { available := [2, 1], used := [], capacity := 2 }
    (by decide) (by decide) buffer_pool.reachable_from.start (by decide) false

/-- C12: preallocation: when no `new` fails, the constructor returns a pool with an empty
`used` list whose `available` stack holds the preallocated buffers, last one on top; for
every `int` value `capacity_ > 0` it has `capacity == capacity_` and
`nof_available_pdus() == capacity_`, and for every `capacity_ <= 0` (the default -1, and 0)
it is built with `POOL_SIZE = 4096` buffers: `capacity == 4096` and
`nof_available_pdus() == 4096`. -/
theorem buffer_pool_preallocation (heap : Nat → Nat) (capacity_ : Int)
    (hheap : ∀ i : Nat, heap i ≠ nullptr) (hint : capacity_ < 2 ^ 31) :
    ∃ p : buffer_pool, buffer_pool.buffer_pool heap capacity_ = some p ∧
      p.used = [] ∧
      p.available = ((List.range p.capacity).map heap).reverse ∧
      (capacity_ > 0 → (p.capacity : Int) = capacity_ ∧
        (p.nof_available_pdus : Int) = capacity_) ∧
      (capacity_ ≤ 0 → p.capacity = 4096 ∧ p.nof_available_pdus = 4096) := by
  have hsome := buffer_pool.preallocate_some heap hheap
    (if capacity_ > 0 then capacity_.toNat % 2 ^ 32 else POOL_SIZE) 0 []
  have hcon : buffer_pool.buffer_pool heap capacity_
      = some ⟨((List.range' 0
          (if capacity_ > 0 then capacity_.toNat % 2 ^ 32 else POOL_SIZE)).map heap).reverse,
        [], if capacity_ > 0 then capacity_.toNat % 2 ^ 32 else POOL_SIZE⟩ := by
    unfold buffer_pool.buffer_pool
    simp only [hsome, List.append_nil]
  refine ⟨_, hcon, rfl, ?_, ?_, ?_⟩
  · simp only [List.range_eq_range']
  · intro hpos
    have hnat : capacity_.toNat % 2 ^ 32 = capacity_.toNat := Nat.mod_eq_of_lt (by omega)
    have hcast : ((capacity_.toNat : Nat) : Int) = capacity_ := Int.toNat_of_nonneg (by omega)
    simp only [buffer_pool.nof_available_pdus, hpos, if_true, List.length_reverse,
      List.length_map, List.length_range', hnat, hcast, and_self]
  · intro hle
    have hnot : ¬ (capacity_ > 0) := by omega
    simp only [buffer_pool.nof_available_pdus, hnot, if_false, List.length_reverse,
      List.length_map, List.length_range', POOL_SIZE]
    decide

/-- Witness for C12: capacity 2 over the heap `i ↦ i + 1`. -/
theorem buffer_pool_preallocation_witness :
    ∃ p : buffer_pool, buffer_pool.buffer_pool (fun i => i + 1) 2 = some p ∧
      p.used = [] ∧
      p.available = ((List.range p.capacity).map (fun i => i + 1)).reverse ∧
      ((2 : Int) > 0 → (p.capacity : Int) = 2 ∧ (p.nof_available_pdus : Int) = 2) ∧
      ((2 : Int) ≤ 0 → p.capacity = 4096 ∧ p.nof_available_pdus = 4096) :=
  buffer_pool_preallocation (fun i => i + 1) 2 (fun i => Nat.succ_ne_zero i) (by decide)


/-- C15: blocking versus non-blocking acquisition: in every pool state with at least one
available buffer, `allocate(name, true)` and `allocate(name, false)` return the same buffer
and the same pool; a blocking call returns only from a state with an available buffer,
and in every state reachable from construction its result is then non-null; on an empty
pool it does not return, and the only operation that makes a buffer available again is a
`deallocate` that returns true. -/
theorem buffer_pool_allocate_blocking (p : buffer_pool) :
    (p.available ≠ [] → p.allocate true = p.allocate false ∧
      ∃ (b : Nat) (q : buffer_pool), p.allocate true = some (b, q)) ∧
    (∀ (b : Nat) (q : buffer_pool), p.allocate true = some (b, q) →
      p.available = b :: q.available ∧ q.used = p.used ++ [b]) ∧
    (buffer_pool.reachable p →
      ∀ (b : Nat) (q : buffer_pool), p.allocate true = some (b, q) → b ≠ nullptr) ∧
    (p.available = [] → p.allocate true = none ∧
      (∀ (blocking : Bool) (b : Nat) (q : buffer_pool),
        p.allocate blocking = some (b, q) → q.available = []) ∧
      (∀ b : Nat, (p.deallocate b).2.available ≠ [] ↔ (p.deallocate b).1 = true)) := by
  have htake : ∀ (b : Nat) (q : buffer_pool), p.allocate true = some (b, q) →
      p.available = b :: q.available ∧ q.used = p.used ++ [b] := by
    intro b q h
    unfold buffer_pool.allocate at h
    split at h
    · next top rest hav =>
      simp only [Option.some.injEq, Prod.mk.injEq] at h
      obtain ⟨rfl, rfl⟩ := h
      exact ⟨hav, rfl⟩
    · simp at h
  refine ⟨?_, htake, ?_, ?_⟩
  · intro hne
    cases hav : p.available with
    | nil => exact absurd hav hne
    | cons top rest =>
      unfold buffer_pool.allocate
      simp [hav]
  · intro hr b q h
    obtain ⟨hnull, -, -, -⟩ := buffer_pool.reachable_no_null p hr
    intro hb
    apply hnull
    rw [(htake b q h).1, hb]
    exact List.mem_cons_self _ _
  · intro hemp
    refine ⟨?_, ?_, ?_⟩
    · unfold buffer_pool.allocate
      simp [hemp]
    · intro blocking b q h
      unfold buffer_pool.allocate at h
      simp only [hemp] at h
      split at h
      · exact absurd h (by simp)
      · simp only [Option.some.injEq, Prod.mk.injEq] at h
        obtain ⟨-, rfl⟩ := h
        exact hemp
    · intro b
      by_cases hmem : b ∈ p.used
      · rw [buffer_pool.deallocate_of_mem p b hmem]
        simp
      · rw [buffer_pool.deallocate_of_not_mem p b hmem]
        simp [hemp]

/-- Witness for C15: the pool of capacity 2 over the heap `i ↦ i + 1` after one
`allocate`. -/
theorem buffer_pool_allocate_blocking_witness :
    buffer_pool.allocate { available := [1], used := [2], capacity := 2 } true
      = buffer_pool.allocate { available := [1], used := [2], capacity := 2 } false ∧
    ∃ (b : Nat) (q : buffer_pool),
      buffer_pool.allocate { available := [1], used := [2], capacity := 2 } true
        = some (b, q) :=
  (buffer_pool_allocate_blocking { available := [1], used := [2], capacity := 2 }).1
    (by decide)

/-- C16: no buffer is handed out twice: in every pool state reachable from construction,
the preallocated buffers being pairwise distinct, by any sequence of `allocate` and
`deallocate` calls with arbitrary pointer arguments, the buffers in `available` and `used`
are pairwise distinct and no buffer is in both; hence `allocate` never returns a buffer
that is currently in `used`, and a buffer returned by `allocate` is not returned by a
later `allocate` until a `deallocate` of it is called (which then succeeds, the buffer
being in `used`). -/
theorem buffer_pool_no_double_handout (heap : Nat → Nat) (capacity_ : Int)
    (p0 p : buffer_pool) (hc : buffer_pool.buffer_pool heap capacity_ = some p0)
    (hd : p0.available.Nodup) (hr : buffer_pool.reachable_from p0 p) :
    (p.available ++ p.used).Nodup ∧
    p.available.Nodup ∧ p.used.Nodup ∧
    (∀ x : Nat, x ∈ p.available → x ∉ p.used) ∧
    (∀ (blocking : Bool) (b : Nat) (q : buffer_pool),
      p.allocate blocking = some (b, q) → b ∉ p.used) ∧
    (∀ (blocking : Bool) (b : Nat) (q : buffer_pool),
      p.allocate blocking = some (b, q) → b ≠ nullptr →
        b ∈ q.used ∧
        ∀ q2 : buffer_pool, buffer_pool.reachable_keeping b q q2 →
          ∀ (blocking2 : Bool) (b2 : Nat) (q3 : buffer_pool),
            q2.allocate blocking2 = some (b2, q3) → b2 ≠ b) := by
  obtain ⟨-, -, hu, hnull0⟩ := buffer_pool.construct_eq heap capacity_ p0 hc
  have hnull : nullptr ∉ p.used := by
    intro hm
    obtain ⟨hperm, -⟩ := buffer_pool.reachable_from_perm p0 p hr
    have := hperm.mem_iff.1 (List.mem_append_right _ hm)
    rw [hu, List.append_nil] at this
    exact hnull0 this
  have hinv : ∀ q : buffer_pool, buffer_pool.reachable_from p0 q →
      (q.available ++ q.used).Nodup := by
    intro q hq
    obtain ⟨hperm, -⟩ := buffer_pool.reachable_from_perm p0 q hq
    rw [hperm.nodup_iff, hu, List.append_nil]
    exact hd
  have hdisj : ∀ q : buffer_pool, buffer_pool.reachable_from p0 q →
      ∀ x : Nat, x ∈ q.available → x ∉ q.used := by
    intro q hq x hx hxu
    exact (List.nodup_append.1 (hinv q hq)).2.2 hx hxu
  have htop : ∀ (q : buffer_pool) (blocking : Bool) (b : Nat) (q2 : buffer_pool),
      q.allocate blocking = some (b, q2) → b ≠ nullptr →
        b ∈ q.available ∧ b ∈ q2.used := by
    intro q blocking b q2 h hb
    unfold buffer_pool.allocate at h
    split at h
    · next top rest hav =>
      simp only [Option.some.injEq, Prod.mk.injEq] at h
      obtain ⟨rfl, rfl⟩ := h
      exact ⟨by rw [hav]; exact List.mem_cons_self _ _, by simp⟩
    · split at h
      · exact absurd h (by simp)
      · simp only [Option.some.injEq, Prod.mk.injEq] at h
        exact absurd h.1.symm hb
  have hnd := hinv p hr
  refine ⟨hnd, (List.nodup_append.1 hnd).1, (List.nodup_append.1 hnd).2.1, hdisj p hr, ?_, ?_⟩
  · intro blocking b q halloc
    by_cases hb : b = nullptr
    · rw [hb]
      exact hnull
    · exact hdisj p hr b (htop p blocking b q halloc hb).1
  intro blocking b q halloc hb
  obtain ⟨hbav, hbq⟩ := htop p blocking b q halloc hb
  have hrq : buffer_pool.reachable_from p0 q :=
    buffer_pool.reachable_from.allocate p blocking b q hr halloc
  refine ⟨hbq, ?_⟩
  intro q2 hk
  have hboth : buffer_pool.reachable_from p0 q2 ∧ b ∈ q2.used := by
    induction hk with
    | start => exact ⟨hrq, hbq⟩
    | allocate s blocking1 r s2 _ hs ih =>
      obtain ⟨ih1, ih2⟩ := ih
      refine ⟨buffer_pool.reachable_from.allocate s blocking1 r s2 ih1 hs, ?_⟩
      unfold buffer_pool.allocate at hs
      split at hs
      · simp only [Option.some.injEq, Prod.mk.injEq] at hs
        obtain ⟨-, rfl⟩ := hs
        exact List.mem_append_left _ ih2
      · split at hs
        · exact absurd hs (by simp)
        · simp only [Option.some.injEq, Prod.mk.injEq] at hs
          obtain ⟨-, rfl⟩ := hs
          exact ih2
    | deallocate s r _ hne ih =>
      obtain ⟨ih1, ih2⟩ := ih
      refine ⟨buffer_pool.reachable_from.deallocate s r ih1, ?_⟩
      by_cases hmem : r ∈ s.used
      · rw [buffer_pool.deallocate_of_mem s r hmem]
        exact (List.mem_erase_of_ne (Ne.symm hne)).2 ih2
      · rw [buffer_pool.deallocate_of_not_mem s r hmem]
        exact ih2
  intro blocking2 b2 q3 h2 heq
  subst heq
  obtain ⟨hav2, -⟩ := htop q2 blocking2 b2 q3 h2 hb
  exact hdisj q2 hboth.1 b2 hav2 hboth.2

/-- Witness for C16: the pool of capacity 2 over the heap `i ↦ i + 1` after one
`allocate`. -/
theorem buffer_pool_no_double_handout_witness :
    (([1] : List Nat) ++ [2]).Nodup ∧
    ∀ x : Nat, x ∈ ([1] : List Nat) → x ∉ ([2] : List Nat) :=
  have h := buffer_pool_no_double_handout (fun i => i + 1) 2
    { available := [2, 1], used := [], capacity := 2 }
    { available := [1], used := [2], capacity := 2 }
    (by decide) (by decide)
    (buffer_pool.reachable_from.allocate _ false 2 _ buffer_pool.reachable_from.start
      (by decide))
  ⟨h.1, h.2.2.2.1⟩

/-- C17: `is_almost_empty()` is true if and only if the number of available buffers is
strictly less than `capacity / 20` (unsigned integer division), which in every state
reachable from construction is `nof_available_pdus() < capacity / 20`; so for every pool
with capacity below 20 it is false in every state, the exhausted one included, and for
the default capacity 4096 it is true exactly when fewer than 204 buffers are available. -/
theorem buffer_pool_is_almost_empty (p : buffer_pool) :
    (p.is_almost_empty = true ↔ p.available.length < p.capacity / 20) ∧
    (buffer_pool.reachable p →
      (p.is_almost_empty = true ↔ p.nof_available_pdus < p.capacity / 20)) ∧
    (p.capacity < 20 → p.is_almost_empty = false) ∧
    (p.capacity = 4096 → (p.is_almost_empty = true ↔ p.available.length < 204)) ∧
    (p.capacity = 4096 → buffer_pool.reachable p →
      (p.is_almost_empty = true ↔ p.nof_available_pdus < 204)) := by
  have hiff : p.is_almost_empty = true ↔ p.available.length < p.capacity / 20 := by
    simp [buffer_pool.is_almost_empty]
  have hnof : buffer_pool.reachable p → p.nof_available_pdus = p.available.length := by
    intro hr
    obtain ⟨-, -, hlen, hcap⟩ := buffer_pool.reachable_no_null p hr
    unfold buffer_pool.nof_available_pdus
    exact Nat.mod_eq_of_lt (by omega)
  refine ⟨hiff, ?_, ?_, ?_, ?_⟩
  · intro hr
    rw [hnof hr]
    exact hiff
  · intro hlt
    have hz : p.capacity / 20 = 0 := Nat.div_eq_of_lt hlt
    cases hv : p.is_almost_empty with
    | false => rfl
    | true =>
      have := hiff.1 hv
      omega
  · intro h4096
    rw [hiff, h4096]
  · intro h4096 hr
    rw [hnof hr, hiff, h4096]

end srslte
